import Mathlib

/-!
# Verification of the resource lock manager

A shallow embedding of the `LockManager` class (reader/writer lock
coordinator over named resources) and proofs of its specified
properties.  JavaScript `Map`s are modelled as insertion-ordered
association lists, promise resolution/rejection as explicit `Event`
values emitted by each operation, and the per-request `setTimeout`
timer as a separate `timeoutFire` step that may occur while the
request is still queued (firing after `clearTimeout` is impossible,
which the model reflects by making the step a no-op when the request
has already left the queue).  Wall-clock readings (`Date.now()`) are
threaded as explicit `now : Nat` arguments.  Object identity of
queued request objects (used by the `req !== request` filter in the
timeout handler) is modelled by a `reqId` drawn from a counter in the
manager state, so distinct enqueues produce distinct ids exactly as
distinct `new`-allocated objects are distinct.

The durable audit file is modelled as an append-only list
(`durableLog`) next to the bounded in-memory ring buffer
(`recentLogs`); the main operations use the healthy-disk behaviour in
which `fs.appendFile` succeeds.  The failure behaviour of the audit
sink (an uncaught `fs.mkdir` rejection versus the caught
`fs.appendFile` rejection) is modelled separately by `logAttempt` and
`releaseLockD`.
-/

namespace HospitalLocks

/-- `LockType`: the `"read" | "write"` mode of a request. -/
inductive LockType where
  | read
  | write
deriving DecidableEq, Repr

/-- Default acquisition deadline: `LOCK_TIMEOUT_MS` with the
environment variable unset. -/
def LOCK_TIMEOUT_MS : Nat := 5000

/-- Default hold duration for simulated locks (`LOCK_SIM_HOLD_MS` unset). -/
def SIMULATED_HOLD_MS : Nat := 15000

/-- Capacity of the in-memory ring buffer of recent log lines. -/
def MAX_LOG_ENTRIES : Nat := 200

/-- A queued lock request.  `reqId` stands for the identity of the
request object; `deadline` records when the `setTimeout` timer armed
at enqueue will fire.  The `resolve`/`reject` closures are modelled by
the `Event` values the operations emit. -/
structure LockRequest where
  reqId : Nat
  type : LockType
  sessionId : String
  requestedAt : Nat
  deadline : Nat
deriving DecidableEq, Repr

/-- Per-resource record: reader map (sessionId to acquisition time),
optional writer, FIFO wait queue. -/
structure LockRecord where
  readers : List (String × Nat)
  writer : Option (String × Nat)
  queue : List LockRequest
deriving DecidableEq, Repr

/-- The record a fresh resource starts with. -/
def emptyRecord : LockRecord := { readers := [], writer := none, queue := [] }

/-- Audit log messages: one constructor per template string passed to
`log`. -/
inductive LogMsg where
  | queued (type : LockType) (resourceId sessionId : String)
  | acquired (type : LockType) (resourceId sessionId : String)
  | timeoutMsg (type : LockType) (resourceId sessionId : String)
  | released (resourceId sessionId : String)
  | forceUnlockMsg (resourceId : String) (sessions : List String)
  | clearAllMsg
deriving DecidableEq, Repr

/-- The errors a pending acquisition can be rejected with, one
constructor per `new Error(...)` template (the timeout message names
the mode and the resource, the cancellation and force-unlock messages
name the session). -/
inductive LockError where
  | timeoutErr (type : LockType) (resourceId : String)
  | cancelled (sessionId : String)
  | forceFlushed (sessionId : String)
deriving DecidableEq, Repr

/-- Promise settlements observed by callers of the acquire operations:
`resolved req` is `req.resolve()` (a successful grant), `rejectedEv`
is `req.reject(error)`. -/
inductive Event where
  | resolved (req : LockRequest)
  | rejectedEv (req : LockRequest) (error : LockError)
deriving DecidableEq, Repr

/-- The manager's mutable state: the lock table (`this.locks`), the
in-memory ring buffer (`this.recentLogs`), the durable append-only
log file contents, and the counter supplying fresh request
identities. -/
structure ManagerState where
  locks : List (String × LockRecord)
  recentLogs : List LogMsg
  durableLog : List LogMsg
  nextReqId : Nat
deriving DecidableEq, Repr

/-- The state of a freshly constructed manager. -/
def initState : ManagerState :=
  { locks := [], recentLogs := [], durableLog := [], nextReqId := 0 }

/-! ## Association-list model of JavaScript `Map` -/

/-- `Map.get`. -/
def mapGet {α : Type} (m : List (String × α)) (k : String) : Option α :=
  match m with
  | [] => none
  | e :: rest => if e.1 = k then some e.2 else mapGet rest k

/-- `Map.set`: replace the first entry with the key in place, else
append at the end (insertion order preserved exactly as in JS). -/
def mapSet {α : Type} (m : List (String × α)) (k : String) (v : α) :
    List (String × α) :=
  match m with
  | [] => [(k, v)]
  | e :: rest => if e.1 = k then (k, v) :: rest else e :: mapSet rest k v

/-- `Map.delete` (ignoring the returned Boolean). -/
def mapDelete {α : Type} (m : List (String × α)) (k : String) :
    List (String × α) :=
  match m with
  | [] => []
  | e :: rest => if e.1 = k then mapDelete rest k else e :: mapDelete rest k

/-! ## Audit sink, healthy-disk behaviour -/

/-- Push a line into the ring buffer, evicting the oldest line when
the capacity is exceeded (`push` then conditional `shift`). -/
def pushLine (logs : List LogMsg) (m : LogMsg) : List LogMsg :=
  let logs1 := logs ++ [m]
  if MAX_LOG_ENTRIES < logs1.length then logs1.tail else logs1

/-- `log(message)` with the durable append succeeding: append to the
file and push into the ring buffer. -/
def pushLog (s : ManagerState) (m : LogMsg) : ManagerState :=
  { s with recentLogs := pushLine s.recentLogs m,
           durableLog := s.durableLog ++ [m] }

/-- Fold `pushLog` over several messages in order. -/
def pushLogList (s : ManagerState) (ms : List LogMsg) : ManagerState :=
  ms.foldl pushLog s

/-! ## Core operations -/

/-- `getRecord`: look the resource up, creating and inserting a fresh
empty record when absent; returns the record and the updated table. -/
def getRecord (locks : List (String × LockRecord)) (resourceId : String) :
    LockRecord × List (String × LockRecord) :=
  match mapGet locks resourceId with
  | some record => (record, locks)
  | none => (emptyRecord, mapSet locks resourceId emptyRecord)

/-- `cleanup(resourceId)`: drop the table entry once the resource has
no readers, no writer and an empty queue. -/
def cleanup (locks : List (String × LockRecord)) (resourceId : String) :
    List (String × LockRecord) :=
  match mapGet locks resourceId with
  | none => locks
  | some record =>
    if record.readers = [] ∧ record.writer = none ∧ record.queue = [] then
      mapDelete locks resourceId
    else locks

/-- Replace the resource's record in the state. -/
def setRecord (s : ManagerState) (resourceId : String) (record : LockRecord) :
    ManagerState :=
  { s with locks := mapSet s.locks resourceId record }

/-- The `while` loop of `processQueue`: grant contiguous read requests
from the front of the queue (the writer slot is empty on entry and the
loop never fills it).  Returns the remaining queue, the extended
reader map, and the granted requests in grant order. -/
def grantReads (queue : List LockRequest) (readers : List (String × Nat))
    (now : Nat) : List LockRequest × List (String × Nat) × List LockRequest :=
  match queue with
  | [] => ([], readers, [])
  | req :: rest =>
    if req.type == LockType.read then
      let r := grantReads rest (mapSet readers req.sessionId now) now
      (r.1, r.2.1, req :: r.2.2)
    else (req :: rest, readers, [])

/-- `processQueue(resourceId)`: the scheduler pass.  Mirrors the
source: an empty queue triggers `cleanup`; a current writer blocks
everything; a write head is granted only over an empty reader set; a
read head starts the read-granting loop.  Each grant runs the
request's `resolve`, which logs an `ACQUIRED` line. -/
def processQueue (s : ManagerState) (resourceId : String) (now : Nat) :
    ManagerState × List Event :=
  match mapGet s.locks resourceId with
  | none => (s, [])
  | some record =>
    match record.queue with
    | [] => ({ s with locks := cleanup s.locks resourceId }, [])
    | next :: restQ =>
      if record.writer.isSome then (s, [])
      else if next.type == LockType.write then
        if record.readers = [] then
          let s1 := setRecord s resourceId
            { record with queue := restQ,
                          writer := some (next.sessionId, now) }
          (pushLog s1 (LogMsg.acquired LockType.write resourceId next.sessionId),
           [Event.resolved next])
        else (s, [])
      else
        let r := grantReads record.queue record.readers now
        let s1 := setRecord s resourceId
          { record with queue := r.1, readers := r.2.1 }
        (pushLogList s1
          (r.2.2.map (fun g => LogMsg.acquired LockType.read resourceId g.sessionId)),
         r.2.2.map Event.resolved)

/-- `enqueue(resourceId, sessionId, type, timeout)`: create the
request (with a fresh identity and a timer due at `now + timeout`),
push it at the back of the queue, log `QUEUED`, and run the
scheduler. -/
def enqueue (s : ManagerState) (resourceId sessionId : String)
    (type : LockType) (timeout now : Nat) : ManagerState × List Event :=
  let g := getRecord s.locks resourceId
  let request : LockRequest :=
    { reqId := s.nextReqId, type := type, sessionId := sessionId,
      requestedAt := now, deadline := now + timeout }
  let record1 := { g.1 with queue := g.1.queue ++ [request] }
  let s1 : ManagerState :=
    { s with locks := mapSet g.2 resourceId record1,
             nextReqId := s.nextReqId + 1 }
  let s2 := pushLog s1 (LogMsg.queued type resourceId sessionId)
  processQueue s2 resourceId now

/-- `acquireReadLock`, with the default timeout. -/
def acquireReadLock (s : ManagerState) (resourceId sessionId : String)
    (now : Nat) : ManagerState × List Event :=
  enqueue s resourceId sessionId LockType.read LOCK_TIMEOUT_MS now

/-- `acquireWriteLock`, with the default timeout. -/
def acquireWriteLock (s : ManagerState) (resourceId sessionId : String)
    (now : Nat) : ManagerState × List Event :=
  enqueue s resourceId sessionId LockType.write LOCK_TIMEOUT_MS now

/-- The timer body armed by `enqueue`, firing while the request is
still queued: remove the request from the queue (by identity), reject
the pending acquisition with the timeout error, log `TIMEOUT`,
`cleanup`, and re-run the scheduler.  If the request already left the
queue its timer was cancelled by `clearTimeout`, so the step does
nothing. -/
def timeoutFire (s : ManagerState) (resourceId : String) (reqId : Nat)
    (now : Nat) : ManagerState × List Event :=
  match mapGet s.locks resourceId with
  | none => (s, [])
  | some record =>
    match record.queue.find? (fun req => req.reqId == reqId) with
    | none => (s, [])
    | some request =>
      let record1 :=
        { record with queue := record.queue.filter (fun req => req.reqId != reqId) }
      let s1 := pushLog (setRecord s resourceId record1)
        (LogMsg.timeoutMsg request.type resourceId request.sessionId)
      let s2 := { s1 with locks := cleanup s1.locks resourceId }
      let p := processQueue s2 resourceId now
      (p.1, Event.rejectedEv request (LockError.timeoutErr request.type resourceId) :: p.2)

/-- The queue filter of `releaseLock`: keep requests of other
sessions, reject (cancel) every queued request owned by the released
session, in queue order. -/
def rejectSession (queue : List LockRequest) (sessionId : String) :
    List LockRequest × List Event :=
  match queue with
  | [] => ([], [])
  | req :: rest =>
    let r := rejectSession rest sessionId
    if req.sessionId == sessionId then
      (r.1, Event.rejectedEv req (LockError.cancelled sessionId) :: r.2)
    else (req :: r.1, r.2)

/-- `releaseLock(resourceId, sessionId)` with a healthy audit sink:
clear the writer slot if this session owns it, remove the session from
the reader map, cancel its queued requests, log `RELEASED` when
something was actually held, then re-run the scheduler and
`cleanup`. -/
def releaseLock (s : ManagerState) (resourceId sessionId : String)
    (now : Nat) : ManagerState × List Event :=
  match mapGet s.locks resourceId with
  | none => (s, [])
  | some record =>
    let relW : Bool :=
      match record.writer with
      | some w => w.1 == sessionId
      | none => false
    let writer1 : Option (String × Nat) :=
      match record.writer with
      | some w => if w.1 == sessionId then none else some w
      | none => none
    let relR : Bool := (mapGet record.readers sessionId).isSome
    let readers1 := mapDelete record.readers sessionId
    let q := rejectSession record.queue sessionId
    let record1 : LockRecord :=
      { readers := readers1, writer := writer1, queue := q.1 }
    let s1 := setRecord s resourceId record1
    let s2 := if relW || relR then pushLog s1 (LogMsg.released resourceId sessionId) else s1
    let p := processQueue s2 resourceId now
    let s3 := { p.1 with locks := cleanup p.1.locks resourceId }
    (s3, q.2 ++ p.2)

/-- `forceUnlock(resourceId)`: clear the writer and all readers,
reject every queued request, log `FORCE_UNLOCK` with the affected
holder sessions (writer first), and reap the now-empty entry. -/
def forceUnlock (s : ManagerState) (resourceId : String) :
    ManagerState × List Event :=
  match mapGet s.locks resourceId with
  | none => (s, [])
  | some record =>
    let affected : List String :=
      (record.writer.map Prod.fst).toList ++ record.readers.map Prod.fst
    let rejections := record.queue.map
      (fun req => Event.rejectedEv req (LockError.forceFlushed req.sessionId))
    let s1 := pushLog (setRecord s resourceId emptyRecord)
      (LogMsg.forceUnlockMsg resourceId affected)
    ({ s1 with locks := cleanup s1.locks resourceId }, rejections)

/-- `clearAll()`: force-unlock every resource present when the call
starts (the key snapshot `[...this.locks.keys()]`), then log. -/
def clearAll (s : ManagerState) : ManagerState × List Event :=
  let keys := s.locks.map Prod.fst
  let r := keys.foldl
    (fun (acc : ManagerState × List Event) k =>
      let f := forceUnlock acc.1 k
      (f.1, acc.2 ++ f.2))
    (s, [])
  (pushLog r.1 LogMsg.clearAllMsg, r.2)

/-! ## Simulated locks

`simulateReadLock` / `simulateWriteLock` generate a fresh session id,
`await` the corresponding acquire, and only then arm the auto-release
timer and return the session id.  The model captures the call's
synchronous enqueue pass: `returned` is the session id the caller has
received once that pass completes (so `none` while the request is
still queued and the caller is still awaiting), and `autoRelease` is
the `(sessionId, holdMs)` release timer armed so far — created at
grant time, hence firing `holdMs` after the grant. -/

/-- Result of one simulate call's synchronous pass. -/
structure SimResult where
  state : ManagerState
  events : List Event
  returned : Option String
  autoRelease : Option (String × Nat)
deriving DecidableEq, Repr

/-- Whether the enqueue pass granted the request of the given session
(the session ids generated from a fresh UUID are owned by this request
alone). -/
def grantedNow (events : List Event) (sessionId : String) : Bool :=
  events.any (fun ev =>
    match ev with
    | Event.resolved req => req.sessionId == sessionId
    | Event.rejectedEv _ _ => false)

/-- `simulateReadLock(resourceId, holdMs)` with `uuid` the fresh UUID. -/
def simulateReadLock (s : ManagerState) (resourceId uuid : String)
    (holdMs now : Nat) : SimResult :=
  let sessionId := "sim-read-" ++ uuid
  let e := acquireReadLock s resourceId sessionId now
  { state := e.1, events := e.2,
    returned := if grantedNow e.2 sessionId then some sessionId else none,
    autoRelease := if grantedNow e.2 sessionId then some (sessionId, holdMs) else none }

/-- `simulateWriteLock(resourceId, holdMs)` with `uuid` the fresh UUID. -/
def simulateWriteLock (s : ManagerState) (resourceId uuid : String)
    (holdMs now : Nat) : SimResult :=
  let sessionId := "sim-write-" ++ uuid
  let e := acquireWriteLock s resourceId sessionId now
  { state := e.1, events := e.2,
    returned := if grantedNow e.2 sessionId then some sessionId else none,
    autoRelease := if grantedNow e.2 sessionId then some (sessionId, holdMs) else none }

/-! ## Snapshot queries

The three queries only read the state: `getActiveLocks` and
`getLockQueue` build a fresh local array and sort it in place (the
`sort` mutates the local array, not the table), `getRecentLogs`
spread-copies the buffer before reversing, so the internal buffer is
never reversed in place.  ISO-8601 timestamp strings compare exactly
like the underlying epoch milliseconds, so the comparators are
modelled on the numeric times. -/

/-- One row of the active-locks snapshot. -/
structure ActiveLockSnapshot where
  resourceId : String
  type : LockType
  sessionId : String
  heldSince : Nat
deriving DecidableEq, Repr

/-- One row of the queue snapshot. -/
structure QueueSnapshot where
  resourceId : String
  type : LockType
  sessionId : String
  waitingSince : Nat
deriving DecidableEq, Repr

/-- Insertion into a list sorted by `le`. -/
def insertSorted {α : Type} (le : α → α → Bool) (x : α) :
    List α → List α
  | [] => [x]
  | y :: ys => if le x y then x :: y :: ys else y :: insertSorted le x ys

/-- Insertion sort by `le`, modelling `Array.prototype.sort`. -/
def sortByLe {α : Type} (le : α → α → Bool) (l : List α) : List α :=
  l.foldr (insertSorted le) []

/-- The rows one record contributes to the active snapshot: the
writer, then every reader in insertion order. -/
def recordActive (resourceId : String) (record : LockRecord) :
    List ActiveLockSnapshot :=
  (match record.writer with
   | some w => [{ resourceId := resourceId, type := LockType.write,
                  sessionId := w.1, heldSince := w.2 }]
   | none => []) ++
  record.readers.map (fun p =>
    { resourceId := resourceId, type := LockType.read,
      sessionId := p.1, heldSince := p.2 })

/-- `getActiveLocks()`: every held reader and writer, sorted by hold
start then resource id. -/
def getActiveLocks (s : ManagerState) : List ActiveLockSnapshot :=
  sortByLe
    (fun a b => decide (a.heldSince < b.heldSince) ||
      (decide (a.heldSince = b.heldSince) && decide (a.resourceId ≤ b.resourceId)))
    (s.locks.flatMap (fun e => recordActive e.1 e.2))

/-- `getLockQueue()`: every queued request, sorted by wait start. -/
def getLockQueue (s : ManagerState) : List QueueSnapshot :=
  sortByLe (fun a b => decide (a.waitingSince ≤ b.waitingSince))
    (s.locks.flatMap (fun e => e.2.queue.map (fun req =>
      { resourceId := e.1, type := req.type,
        sessionId := req.sessionId, waitingSince := req.requestedAt })))

/-- `getRecentLogs()`: a reversed copy of the ring buffer
(`[...this.recentLogs].reverse()` copies before reversing). -/
def getRecentLogs (s : ManagerState) : List LogMsg :=
  s.recentLogs.reverse

/-- The three read-only queries as state transformers, translated
from methods whose bodies contain no assignment to `this.locks` or
`this.recentLogs` and return freshly built arrays. -/
inductive Query where
  | active
  | queueQ
  | logs
deriving DecidableEq, Repr

/-- The output of a query. -/
inductive QueryOut where
  | activeOut (xs : List ActiveLockSnapshot)
  | queueOut (xs : List QueueSnapshot)
  | logsOut (xs : List LogMsg)
deriving DecidableEq, Repr

/-- Run one query against the state. -/
def applyQuery (s : ManagerState) (q : Query) : ManagerState × QueryOut :=
  match q with
  | Query.active => (s, QueryOut.activeOut (getActiveLocks s))
  | Query.queueQ => (s, QueryOut.queueOut (getLockQueue s))
  | Query.logs => (s, QueryOut.logsOut (getRecentLogs s))

/-- Run a sequence of queries, keeping only the state. -/
def runQueries (s : ManagerState) (qs : List Query) : ManagerState :=
  qs.foldl (fun st q => (applyQuery st q).1) s

/-! ## The step machine -/

/-- The public operations and asynchronous events that mutate the
manager, as atomic steps (each synchronous mutation passage of the
source runs without an intervening suspension point). -/
inductive Step where
  | acquireRead (resourceId sessionId : String) (now : Nat)
  | acquireWrite (resourceId sessionId : String) (now : Nat)
  | process (resourceId : String) (now : Nat)
  | timeoutStep (resourceId : String) (reqId : Nat) (now : Nat)
  | release (resourceId sessionId : String) (now : Nat)
  | force (resourceId : String)
  | clearAllStep
  | simRead (resourceId uuid : String) (holdMs now : Nat)
  | simWrite (resourceId uuid : String) (holdMs now : Nat)
deriving DecidableEq, Repr

/-- Apply one step. -/
def applyStep (s : ManagerState) (st : Step) : ManagerState × List Event :=
  match st with
  | Step.acquireRead r sid now => acquireReadLock s r sid now
  | Step.acquireWrite r sid now => acquireWriteLock s r sid now
  | Step.process r now => processQueue s r now
  | Step.timeoutStep r reqId now => timeoutFire s r reqId now
  | Step.release r sid now => releaseLock s r sid now
  | Step.force r => forceUnlock s r
  | Step.clearAllStep => clearAll s
  | Step.simRead r uuid holdMs now => (simulateReadLock s r uuid holdMs now).state
      |> (fun st1 => (st1, (simulateReadLock s r uuid holdMs now).events))
  | Step.simWrite r uuid holdMs now => (simulateWriteLock s r uuid holdMs now).state
      |> (fun st1 => (st1, (simulateWriteLock s r uuid holdMs now).events))

/-- Run a sequence of steps from a state. -/
def runSteps (s : ManagerState) (steps : List Step) : ManagerState :=
  steps.foldl (fun st p => (applyStep st p).1) s

/-- A state the manager can actually be in: reachable from the fresh
manager by some sequence of steps. -/
def Reachable (s : ManagerState) : Prop :=
  ∃ steps : List Step, runSteps initState steps = s

/-! ## The audit sink's failure behaviour

`ensureLogDir` caches `fs.mkdir(LOG_DIR, { recursive: true })` without
a rejection handler, so when directory creation fails the `await
this.ensureLogDir()` inside `log` rethrows and `log` rejects *before*
the `recentLogs.push` runs; the `fs.appendFile` rejection, by
contrast, is caught (`.catch(() => {})`) and the push still runs.
`releaseLock` is the operation that `await`s its `log` call, so a
rejecting `log` escapes to `releaseLock`'s caller and skips the
rescheduling and cleanup below it. -/

/-- One `log(message)` call under explicit disk behaviour: the
resulting ring buffer and durable contents, or the uncaught
directory-creation rejection. -/
def logAttempt (mkdirFails appendFails : Bool) (recentLogs durable : List LogMsg)
    (m : LogMsg) : Except Unit (List LogMsg × List LogMsg) :=
  if mkdirFails then Except.error ()
  else Except.ok (pushLine recentLogs m,
    if appendFails then durable else durable ++ [m])

/-- `releaseLock` under explicit disk behaviour: identical to
`releaseLock` except that the awaited `RELEASED` log line can reject,
in which case the error propagates to the caller and the
`processQueue`/`cleanup` calls after it never run.  The `error` case
carries the state the manager is left in: the record mutation before
the `await` survives, the ring buffer is not updated (the push sits
after the failed `await`), and no rescheduling or reaping happens. -/
def releaseLockD (mkdirFails appendFails : Bool) (s : ManagerState)
    (resourceId sessionId : String) (now : Nat) :
    Except ManagerState (ManagerState × List Event) :=
  match mapGet s.locks resourceId with
  | none => Except.ok (s, [])
  | some record =>
    let relW : Bool :=
      match record.writer with
      | some w => w.1 == sessionId
      | none => false
    let writer1 : Option (String × Nat) :=
      match record.writer with
      | some w => if w.1 == sessionId then none else some w
      | none => none
    let relR : Bool := (mapGet record.readers sessionId).isSome
    let readers1 := mapDelete record.readers sessionId
    let q := rejectSession record.queue sessionId
    let record1 : LockRecord :=
      { readers := readers1, writer := writer1, queue := q.1 }
    let s1 := setRecord s resourceId record1
    let after := fun (s2 : ManagerState) =>
      let p := processQueue s2 resourceId now
      let s3 := { p.1 with locks := cleanup p.1.locks resourceId }
      Except.ok (s3, q.2 ++ p.2)
    if relW || relR then
      match logAttempt mkdirFails appendFails s1.recentLogs s1.durableLog
        (LogMsg.released resourceId sessionId) with
      | Except.error _ => Except.error s1
      | Except.ok bufs =>
        after { s1 with recentLogs := bufs.1, durableLog := bufs.2 }
    else after s1

deriving instance DecidableEq for Except

/-! ## Derived predicates used in the specification statements -/

/-- Whether the resource currently has at least one reader, a writer,
or a queued request. -/
def hasActivity (s : ManagerState) (r : String) : Bool :=
  match mapGet s.locks r with
  | none => false
  | some record =>
    !record.readers.isEmpty || record.writer.isSome || !record.queue.isEmpty

/-- The session holds nothing on the resource and has nothing queued
there: it does not occupy the writer slot, has no reader entry, and
owns no queued request. -/
def holdsNothing (s : ManagerState) (r sid : String) : Bool :=
  match mapGet s.locks r with
  | none => true
  | some record =>
    (match record.writer with
     | some w => !(w.1 == sid)
     | none => true) &&
    !(mapGet record.readers sid).isSome &&
    record.queue.all (fun req => !(req.sessionId == sid))

/-- Whether a settlement event is a rejection. -/
def isRejection : Event → Bool
  | Event.resolved _ => false
  | Event.rejectedEv _ _ => true

/-- The session appears nowhere in the record: not as writer, not as a
reader, not as the owner of a queued request. -/
def sessionFree (record : LockRecord) (sid : String) : Prop :=
  (∀ w, record.writer = some w → w.1 ≠ sid) ∧
  mapGet record.readers sid = none ∧
  (∀ req ∈ record.queue, req.sessionId ≠ sid)

/-- The record after `releaseLock`'s three mutation passages (writer
check, reader delete, queue filter), named for compositional
reasoning. -/
def releasedRecord (record : LockRecord) (sid : String) : LockRecord :=
  { readers := mapDelete record.readers sid,
    writer := match record.writer with
              | some w => if w.1 == sid then none else some w
              | none => none,
    queue := (rejectSession record.queue sid).1 }

/-- `released` inside `releaseLock`: whether the session actually held
the writer slot or a reader entry. -/
def releasedFlag (record : LockRecord) (sid : String) : Bool :=
  (match record.writer with
   | some w => w.1 == sid
   | none => false) || (mapGet record.readers sid).isSome

/-- The state `releaseLock` reaches just before its final
`processQueue`/`cleanup`: record replaced, `RELEASED` logged when the
session held something. -/
def releaseMid (s : ManagerState) (r sid : String) (record : LockRecord) :
    ManagerState :=
  if releasedFlag record sid then
    pushLog (setRecord s r (releasedRecord record sid)) (LogMsg.released r sid)
  else setRecord s r (releasedRecord record sid)

/-! ## Concrete states used by the verification examples -/

/-- Session `w` holds the write lock on `R` (one acquire step). -/
def sW : ManagerState := runSteps initState [Step.acquireWrite "R" "w" 0]

/-- The record of `R` in `sW`. -/
def record0W : LockRecord := { readers := [], writer := some ("w", 0), queue := [] }

/-- Reader request of session `a` queued behind the writer of `sW`. -/
def reqA : LockRequest :=
  { reqId := 1, type := LockType.read, sessionId := "a", requestedAt := 1, deadline := 5001 }

/-- Reader request of session `b` queued behind the writer of `sW`. -/
def reqB : LockRequest :=
  { reqId := 2, type := LockType.read, sessionId := "b", requestedAt := 2, deadline := 5002 }

/-- One writer holding, two readers queued: the force-unlock scenario. -/
def sWRR : ManagerState := runSteps initState
  [Step.acquireWrite "R" "w" 0, Step.acquireRead "R" "a" 1, Step.acquireRead "R" "b" 2]

/-- The record of `R` in `sWRR`. -/
def record0WRR : LockRecord :=
  { readers := [], writer := some ("w", 0), queue := [reqA, reqB] }

/-- Write request of session `b` blocked by the reader `a`. -/
def reqWB : LockRequest :=
  { reqId := 1, type := LockType.write, sessionId := "b", requestedAt := 1, deadline := 5001 }

/-- Read request of session `c` queued behind the write barrier `reqWB`. -/
def reqRC : LockRequest :=
  { reqId := 2, type := LockType.read, sessionId := "c", requestedAt := 2, deadline := 5002 }

/-- Reader `a` holding, a write queued, a read queued behind the
write: the timeout-unblocking scenario. -/
def sRWR : ManagerState := runSteps initState
  [Step.acquireRead "R" "a" 0, Step.acquireWrite "R" "b" 1, Step.acquireRead "R" "c" 2]

/-- The record of `R` in `sRWR`. -/
def record0RWR : LockRecord :=
  { readers := [("a", 0)], writer := none, queue := [reqWB, reqRC] }

/-- Pending read request of session `p`. -/
def reqR1 : LockRequest :=
  { reqId := 10, type := LockType.read, sessionId := "p", requestedAt := 0, deadline := 5000 }

/-- Pending read request of session `q`. -/
def reqR2 : LockRequest :=
  { reqId := 11, type := LockType.read, sessionId := "q", requestedAt := 1, deadline := 5001 }

/-- Pending write request of session `z`. -/
def reqW3 : LockRequest :=
  { reqId := 12, type := LockType.write, sessionId := "z", requestedAt := 2, deadline := 5002 }

/-- A mid-operation table state whose queue head is a read: two reads
then a write pending on an idle record, as it looks right before the
scheduler pass runs. -/
def sReadHead : ManagerState :=
  { locks := [("R", { readers := [], writer := none, queue := [reqR1, reqR2, reqW3] })],
    recentLogs := [], durableLog := [], nextReqId := 13 }

/-- The record of `R` in `sReadHead`. -/
def record0RH : LockRecord :=
  { readers := [], writer := none, queue := [reqR1, reqR2, reqW3] }

/-! ## Association-list lemmas -/

/-- Distinct keys, the shape `this.locks` always has. -/
def KeysNodup {α : Type} (m : List (String × α)) : Prop :=
  (m.map Prod.fst).Nodup

theorem keysNodup_nil {α : Type} : KeysNodup ([] : List (String × α)) := by
  simp [KeysNodup]

theorem mapGet_set_self {α : Type} (m : List (String × α)) (k : String) (v : α) :
    mapGet (mapSet m k v) k = some v := by
  induction m with
  | nil => simp [mapSet, mapGet]
  | cons e rest ih =>
    by_cases h : e.1 = k
    · simp [mapSet, h, mapGet]
    · simp [mapSet, h, mapGet, ih]

theorem mapGet_set_ne {α : Type} (m : List (String × α)) (k k' : String) (v : α)
    (h : k' ≠ k) : mapGet (mapSet m k v) k' = mapGet m k' := by
  have hk : ¬ (k = k') := fun h1 => h h1.symm
  induction m with
  | nil => simp [mapSet, mapGet, hk]
  | cons e rest ih =>
    by_cases he : e.1 = k
    · simp [mapSet, he, mapGet, hk]
    · simp only [mapSet, he, if_false, mapGet]
      by_cases he' : e.1 = k'
      · simp [he']
      · simp [he', ih]

theorem mapGet_delete_self {α : Type} (m : List (String × α)) (k : String) :
    mapGet (mapDelete m k) k = none := by
  induction m with
  | nil => simp [mapDelete, mapGet]
  | cons e rest ih =>
    by_cases h : e.1 = k
    · simp [mapDelete, h, ih]
    · simp [mapDelete, h, mapGet, ih]

theorem mapGet_some_mem {α : Type} {m : List (String × α)} {k : String} {v : α}
    (h : mapGet m k = some v) : (k, v) ∈ m := by
  induction m with
  | nil => simp [mapGet] at h
  | cons e rest ih =>
    by_cases he : e.1 = k
    · simp only [mapGet, he, if_true] at h
      cases e with
      | mk k0 v0 =>
        simp at he h
        subst he
        subst h
        exact List.mem_cons_self _ _
    · simp only [mapGet, he, if_false] at h
      exact List.mem_cons_of_mem _ (ih h)

theorem mapGet_none_key {α : Type} {m : List (String × α)} {k : String}
    (h : mapGet m k = none) : ∀ e ∈ m, e.1 ≠ k := by
  induction m with
  | nil => simp
  | cons e rest ih =>
    by_cases he : e.1 = k
    · simp [mapGet, he] at h
    · simp only [mapGet, he, if_false] at h
      rw [List.forall_mem_cons]
      exact ⟨he, ih h⟩

theorem mem_mapSet {α : Type} {m : List (String × α)} {k : String} {v : α}
    {e : String × α} (h : e ∈ mapSet m k v) : e = (k, v) ∨ e ∈ m := by
  induction m with
  | nil =>
    simp [mapSet] at h
    left; exact h
  | cons f rest ih =>
    by_cases hf : f.1 = k
    · simp only [mapSet, hf, if_true] at h
      rcases List.mem_cons.mp h with h1 | h1
      · left; exact h1
      · right; exact List.mem_cons_of_mem _ h1
    · simp only [mapSet, hf, if_false] at h
      rcases List.mem_cons.mp h with h1 | h1
      · right; rw [h1]; exact List.mem_cons_self _ _
      · rcases ih h1 with h2 | h2
        · left; exact h2
        · right; exact List.mem_cons_of_mem _ h2

theorem mem_mapDelete {α : Type} {m : List (String × α)} {k : String}
    {e : String × α} (h : e ∈ mapDelete m k) : e ∈ m ∧ e.1 ≠ k := by
  induction m with
  | nil => simp [mapDelete] at h
  | cons f rest ih =>
    by_cases hf : f.1 = k
    · simp only [mapDelete, hf, if_true] at h
      have h1 := ih h
      exact ⟨List.mem_cons_of_mem _ h1.1, h1.2⟩
    · simp only [mapDelete, hf, if_false] at h
      rcases List.mem_cons.mp h with h1 | h1
      · refine ⟨by rw [h1]; exact List.mem_cons_self _ _, ?_⟩
        rw [h1]; exact hf
      · have h2 := ih h1
        exact ⟨List.mem_cons_of_mem _ h2.1, h2.2⟩

theorem keys_mapSet {α : Type} {m : List (String × α)} {k a : String} {v : α}
    (h : a ∈ (mapSet m k v).map Prod.fst) :
    a ∈ m.map Prod.fst ∨ a = k := by
  rcases List.mem_map.mp h with ⟨e, he, hea⟩
  rcases mem_mapSet he with h1 | h1
  · right; rw [← hea, h1]
  · left; exact hea ▸ List.mem_map_of_mem Prod.fst h1

theorem keysNodup_mapSet {α : Type} {m : List (String × α)} (k : String) (v : α)
    (h : KeysNodup m) : KeysNodup (mapSet m k v) := by
  induction m with
  | nil => simp [mapSet, KeysNodup]
  | cons f rest ih =>
    simp only [KeysNodup, List.map_cons, List.nodup_cons] at h
    by_cases hf : f.1 = k
    · simp only [KeysNodup, mapSet, hf, if_true, List.map_cons, List.nodup_cons]
      exact ⟨fun hk => h.1 (hf ▸ hk), h.2⟩
    · simp only [KeysNodup, mapSet, hf, if_false, List.map_cons, List.nodup_cons]
      refine ⟨?_, ih h.2⟩
      intro hmem
      rcases keys_mapSet hmem with h1 | h1
      · exact h.1 h1
      · exact hf h1

theorem keysNodup_mapDelete {α : Type} {m : List (String × α)} (k : String)
    (h : KeysNodup m) : KeysNodup (mapDelete m k) := by
  induction m with
  | nil => simp [mapDelete, KeysNodup]
  | cons f rest ih =>
    simp only [KeysNodup, List.map_cons, List.nodup_cons] at h
    by_cases hf : f.1 = k
    · simp only [mapDelete, hf, if_true]
      exact ih h.2
    · simp only [KeysNodup, mapDelete, hf, if_false, List.map_cons, List.nodup_cons]
      refine ⟨?_, ih h.2⟩
      intro hmem
      rcases List.mem_map.mp hmem with ⟨e, he, hea⟩
      exact h.1 (hea ▸ List.mem_map_of_mem Prod.fst (mem_mapDelete he).1)

theorem mem_mapSet_key {α : Type} {m : List (String × α)} {k : String} {v : α}
    {e : String × α} (hnd : KeysNodup m) (h : e ∈ mapSet m k v) :
    e = (k, v) ∨ (e ∈ m ∧ e.1 ≠ k) := by
  induction m with
  | nil =>
    simp [mapSet] at h
    left; exact h
  | cons f rest ih =>
    simp only [KeysNodup, List.map_cons, List.nodup_cons] at hnd
    by_cases hf : f.1 = k
    · simp only [mapSet, hf, if_true] at h
      rcases List.mem_cons.mp h with h1 | h1
      · left; exact h1
      · right
        refine ⟨List.mem_cons_of_mem _ h1, ?_⟩
        intro hek
        exact hnd.1 (hf ▸ hek ▸ List.mem_map_of_mem Prod.fst h1)
    · simp only [mapSet, hf, if_false] at h
      rcases List.mem_cons.mp h with h1 | h1
      · right
        refine ⟨by rw [h1]; exact List.mem_cons_self _ _, ?_⟩
        rw [h1]; exact hf
      · rcases ih hnd.2 h1 with h2 | h2
        · left; exact h2
        · right; exact ⟨List.mem_cons_of_mem _ h2.1, h2.2⟩

theorem mapSet_self {α : Type} {m : List (String × α)} {k : String} {v : α}
    (h : mapGet m k = some v) : mapSet m k v = m := by
  induction m with
  | nil => simp [mapGet] at h
  | cons e rest ih =>
    by_cases he : e.1 = k
    · simp only [mapGet, he, if_true] at h
      cases e with
      | mk k0 v0 =>
        simp at he h
        subst he
        subst h
        simp [mapSet]
    · simp only [mapGet, he, if_false] at h
      simp [mapSet, he, ih h]

theorem mapDelete_of_none {α : Type} {m : List (String × α)} {k : String}
    (h : mapGet m k = none) : mapDelete m k = m := by
  induction m with
  | nil => simp [mapDelete]
  | cons e rest ih =>
    by_cases he : e.1 = k
    · simp [mapGet, he] at h
    · simp only [mapGet, he, if_false] at h
      simp [mapDelete, he, ih h]

theorem mapGet_unique {α : Type} {m : List (String × α)} (hnd : KeysNodup m)
    {k : String} {v : α} (hget : mapGet m k = some v) :
    ∀ e ∈ m, e.1 = k → e.2 = v := by
  induction m with
  | nil => simp
  | cons f rest ih =>
    simp only [KeysNodup, List.map_cons, List.nodup_cons] at hnd
    by_cases hf : f.1 = k
    · simp only [mapGet, hf, if_true, Option.some.injEq] at hget
      intro e he hek
      rcases List.mem_cons.mp he with h1 | h1
      · rw [h1, hget]
      · exact absurd (hf ▸ hek ▸ List.mem_map_of_mem Prod.fst h1) hnd.1
    · simp only [mapGet, hf, if_false] at hget
      intro e he hek
      rcases List.mem_cons.mp he with h1 | h1
      · exact absurd (h1 ▸ hek) hf
      · exact ih hnd.2 hget e h1 hek

theorem mapSet_ne_nil {α : Type} (m : List (String × α)) (k : String) (v : α) :
    mapSet m k v ≠ [] := by
  cases m with
  | nil => simp [mapSet]
  | cons e rest =>
    by_cases h : e.1 = k <;> simp [mapSet, h]

/-! ## State invariants -/

/-- Mutual exclusion inside one record: the writer slot and a
non-empty reader set never coexist. -/
def MutExRec (record : LockRecord) : Prop :=
  record.writer = none ∨ record.readers = []

/-- A record that justifies its table entry: at least one reader, a
writer, or a queued request. -/
def NonEmptyRec (record : LockRecord) : Prop :=
  record.readers ≠ [] ∨ record.writer ≠ none ∨ record.queue ≠ []

/-- A record the scheduler pass leaves unchanged: an empty queue, or a
head blocked by the current writer, or a write head blocked by current
readers. -/
def StableRec (record : LockRecord) : Prop :=
  match record.queue with
  | [] => True
  | h :: _ => record.writer ≠ none ∨ (h.type = LockType.write ∧ record.readers ≠ [])

/-- The conjunction the lock table maintains for each of its records. -/
def GoodRec (record : LockRecord) : Prop :=
  MutExRec record ∧ NonEmptyRec record ∧ StableRec record

/-- The lock-table invariant: distinct resource keys, and every
record mutually exclusive, non-empty and scheduler-stable. -/
def Inv (s : ManagerState) : Prop :=
  KeysNodup s.locks ∧ ∀ e ∈ s.locks, GoodRec e.2

theorem pushLog_locks (s : ManagerState) (m : LogMsg) :
    (pushLog s m).locks = s.locks := rfl

theorem pushLogList_locks (ms : List LogMsg) :
    ∀ s : ManagerState, (pushLogList s ms).locks = s.locks := by
  induction ms with
  | nil => intro s; rfl
  | cons m rest ih =>
    intro s
    show (pushLogList (pushLog s m) rest).locks = s.locks
    rw [ih (pushLog s m)]
    rfl

theorem mem_cleanup {locks : List (String × LockRecord)} {r : String}
    {e : String × LockRecord} (h : e ∈ cleanup locks r) : e ∈ locks := by
  unfold cleanup at h
  split at h
  · exact h
  · split at h
    · exact (mem_mapDelete h).1
    · exact h

theorem keysNodup_cleanup {locks : List (String × LockRecord)} (r : String)
    (h : KeysNodup locks) : KeysNodup (cleanup locks r) := by
  unfold cleanup
  split
  · exact h
  · split
    · exact keysNodup_mapDelete r h
    · exact h

/-! ## The grant loop computes a take/drop split of the queue -/

theorem grantReads_queue (q : List LockRequest) (rs : List (String × Nat))
    (now : Nat) :
    (grantReads q rs now).1 = q.dropWhile (fun req => req.type == LockType.read) := by
  induction q generalizing rs with
  | nil => simp [grantReads]
  | cons req rest ih =>
    by_cases h : req.type == LockType.read
    · simp [grantReads, h, List.dropWhile, ih]
    · simp [grantReads, h, List.dropWhile]

theorem grantReads_granted (q : List LockRequest) (rs : List (String × Nat))
    (now : Nat) :
    (grantReads q rs now).2.2 = q.takeWhile (fun req => req.type == LockType.read) := by
  induction q generalizing rs with
  | nil => simp [grantReads]
  | cons req rest ih =>
    by_cases h : req.type == LockType.read
    · simp [grantReads, h, List.takeWhile, ih]
    · simp [grantReads, h, List.takeWhile]

theorem grantReads_readers (q : List LockRequest) (rs : List (String × Nat))
    (now : Nat) :
    (grantReads q rs now).2.1 =
      (q.takeWhile (fun req => req.type == LockType.read)).foldl
        (fun m g => mapSet m g.sessionId now) rs := by
  induction q generalizing rs with
  | nil => simp [grantReads]
  | cons req rest ih =>
    by_cases h : req.type == LockType.read
    · simp [grantReads, h, List.takeWhile, ih]
    · simp [grantReads, h, List.takeWhile]

theorem grantReads_readers_ne_nil (q : List LockRequest) :
    ∀ (rs : List (String × Nat)) (now : Nat), rs ≠ [] →
      (grantReads q rs now).2.1 ≠ [] := by
  induction q with
  | nil => intro rs now h; simpa [grantReads] using h
  | cons req rest ih =>
    intro rs now h
    by_cases hr : req.type == LockType.read
    · simp only [grantReads, hr, if_true]
      exact ih (mapSet rs req.sessionId now) now (mapSet_ne_nil rs req.sessionId now)
    · simpa [grantReads, hr] using h

theorem dropWhile_head_false {α : Type} (p : α → Bool) (q : List α) :
    ∀ h t, q.dropWhile p = h :: t → p h = false := by
  induction q with
  | nil => intro h t hq; simp [List.dropWhile] at hq
  | cons a rest ih =>
    intro h t hq
    by_cases ha : p a
    · simp only [List.dropWhile, ha, if_true] at hq
      exact ih h t hq
    · simp only [List.dropWhile, ha] at hq
      have h1 : a = h := (List.cons.injEq a rest h t ▸ hq).1
      rw [← h1]
      simpa using ha

theorem grantReads_head_read_ne_nil (next : LockRequest) (rest : List LockRequest)
    (rs : List (String × Nat)) (now : Nat) (h : (next.type == LockType.read) = true) :
    (grantReads (next :: rest) rs now).2.1 ≠ [] := by
  simp only [grantReads, h, if_true]
  exact grantReads_readers_ne_nil rest _ now (mapSet_ne_nil rs next.sessionId now)

theorem lockType_write_of_ne_read {t : LockType} (h : ¬ t = LockType.read) :
    t = LockType.write := by
  cases t
  · exact absurd rfl h
  · rfl

theorem mem_cleanup_key {locks : List (String × LockRecord)} {r : String}
    {e : String × LockRecord} (hnd : KeysNodup locks)
    (h : e ∈ cleanup locks r) (her : e.1 = r) :
    e ∈ locks ∧ ¬(e.2.readers = [] ∧ e.2.writer = none ∧ e.2.queue = []) := by
  unfold cleanup at h
  split at h
  · rename_i hg0
    exact absurd her (mapGet_none_key hg0 e h)
  · rename_i record hg0
    split at h
    · exact absurd her (mem_mapDelete h).2
    · rename_i hc
      refine ⟨h, ?_⟩
      have heq : e.2 = record := mapGet_unique hnd hg0 e h her
      rw [heq]
      exact hc

/-- The scheduler pass establishes the table invariant: provided every
record is mutually exclusive and every record of other resources is
fully good, after `processQueue` every record — including the
processed one — is good. -/
theorem inv_locks_eq {s1 s2 : ManagerState} (h : s1.locks = s2.locks)
    (hi : Inv s1) : Inv s2 := by
  unfold Inv at *
  rw [← h]
  exact hi

theorem processQueue_inv (s : ManagerState) (r : String) (now : Nat)
    (hnd : KeysNodup s.locks)
    (hmx : ∀ e ∈ s.locks, MutExRec e.2)
    (hg : ∀ e ∈ s.locks, e.1 ≠ r → GoodRec e.2) :
    Inv (processQueue s r now).1 := by
  cases hrec : mapGet s.locks r with
  | none =>
    have hres : processQueue s r now = (s, []) := by
      unfold processQueue; simp only [hrec]
    rw [hres]
    refine ⟨hnd, ?_⟩
    intro e he
    by_cases her : e.1 = r
    · exact absurd her (mapGet_none_key hrec e he)
    · exact hg e he her
  | some record =>
    cases hq : record.queue with
    | nil =>
      have hres : processQueue s r now = ({ s with locks := cleanup s.locks r }, []) := by
        unfold processQueue; simp only [hrec, hq]
      rw [hres]
      refine ⟨keysNodup_cleanup r hnd, ?_⟩
      intro e he
      by_cases her : e.1 = r
      · have h1 := mem_cleanup_key hnd he her
        have heq : e.2 = record := mapGet_unique hnd hrec e h1.1 her
        refine ⟨hmx e h1.1, ?_, ?_⟩
        · unfold NonEmptyRec
          tauto
        · unfold StableRec
          rw [heq, hq]
          trivial
      · exact hg e (mem_cleanup he) her
    | cons next restQ =>
      by_cases hw : record.writer.isSome
      · have hres : processQueue s r now = (s, []) := by
          unfold processQueue; simp only [hrec, hq]; simp [hw]
        rw [hres]
        refine ⟨hnd, ?_⟩
        intro e he
        by_cases her : e.1 = r
        · have heq : e.2 = record := mapGet_unique hnd hrec e he her
          refine ⟨hmx e he, ?_, ?_⟩
          · unfold NonEmptyRec
            rw [heq, hq]
            right; right
            simp
          · unfold StableRec
            rw [heq, hq]
            left
            exact Option.isSome_iff_ne_none.mp hw
        · exact hg e he her
      · have hwn : record.writer = none := Option.not_isSome_iff_eq_none.mp hw
        by_cases ht : (next.type == LockType.write) = true
        · by_cases hre : record.readers = []
          · have hres : processQueue s r now =
                (pushLog (setRecord s r
                    { record with queue := restQ,
                                  writer := some (next.sessionId, now) })
                  (LogMsg.acquired LockType.write r next.sessionId),
                 [Event.resolved next]) := by
              unfold processQueue; simp only [hrec, hq]; simp [hw, ht, hre]
            rw [hres]
            refine ⟨?_, ?_⟩
            · show KeysNodup (mapSet s.locks r _)
              exact keysNodup_mapSet r _ hnd
            · intro e he
              have he1 : e ∈ mapSet s.locks r
                  { record with queue := restQ,
                                writer := some (next.sessionId, now) } := he
              rcases mem_mapSet_key hnd he1 with h1 | h1
              · rw [h1]
                refine ⟨Or.inr hre, Or.inr (Or.inl (by simp)), ?_⟩
                unfold StableRec
                cases restQ with
                | nil => trivial
                | cons a b => left; simp
              · exact hg e h1.1 h1.2
          · have hres : processQueue s r now = (s, []) := by
              unfold processQueue; simp only [hrec, hq]; simp [hw, ht, hre]
            rw [hres]
            refine ⟨hnd, ?_⟩
            intro e he
            by_cases her : e.1 = r
            · have heq : e.2 = record := mapGet_unique hnd hrec e he her
              refine ⟨hmx e he, ?_, ?_⟩
              · unfold NonEmptyRec
                rw [heq, hq]
                right; right
                simp
              · unfold StableRec
                rw [heq, hq]
                right
                exact ⟨by simpa using ht, hre⟩
            · exact hg e he her
        · have hres : processQueue s r now =
              (pushLogList (setRecord s r
                  { record with
                      queue := (grantReads (next :: restQ) record.readers now).1,
                      readers := (grantReads (next :: restQ) record.readers now).2.1 })
                ((grantReads (next :: restQ) record.readers now).2.2.map
                  (fun g => LogMsg.acquired LockType.read r g.sessionId)),
               (grantReads (next :: restQ) record.readers now).2.2.map Event.resolved) := by
            unfold processQueue; simp only [hrec, hq]; simp [hw, ht]
          rw [hres]
          have htr : (next.type == LockType.read) = true := by
            cases h1 : next.type
            · rfl
            · rw [h1] at ht; exact absurd rfl ht
          refine inv_locks_eq (pushLogList_locks _ _).symm ⟨?_, ?_⟩
          · exact keysNodup_mapSet r _ hnd
          · intro e he
            have he1 : e ∈ mapSet s.locks r
                { record with
                    queue := (grantReads (next :: restQ) record.readers now).1,
                    readers := (grantReads (next :: restQ) record.readers now).2.1 } := he
            rcases mem_mapSet_key hnd he1 with h1 | h1
            · rw [h1]
              refine ⟨Or.inl hwn, Or.inl ?_, ?_⟩
              · exact grantReads_head_read_ne_nil next restQ record.readers now htr
              · unfold StableRec
                show (match (grantReads (next :: restQ) record.readers now).1 with
                  | [] => True
                  | h :: _ => record.writer ≠ none ∨
                      (h.type = LockType.write ∧
                        (grantReads (next :: restQ) record.readers now).2.1 ≠ []))
                cases hh : (grantReads (next :: restQ) record.readers now).1 with
                | nil => trivial
                | cons h2 t2 =>
                  right
                  rw [grantReads_queue] at hh
                  have hfalse := dropWhile_head_false _ _ _ _ hh
                  refine ⟨lockType_write_of_ne_read ?_, ?_⟩
                  · intro hx
                    rw [hx] at hfalse
                    simp at hfalse
                  · exact grantReads_head_read_ne_nil next restQ record.readers now htr
            · exact hg e h1.1 h1.2

/-! ## Invariant preservation for every operation -/

theorem mapSet_mapSet {α : Type} (m : List (String × α)) (k : String) (v w : α) :
    mapSet (mapSet m k v) k w = mapSet m k w := by
  induction m with
  | nil => simp [mapSet]
  | cons e rest ih =>
    by_cases h : e.1 = k
    · simp [mapSet, h]
    · simp [mapSet, h, ih]

theorem preInv_set_mutex {s : ManagerState} {r : String} {rec : LockRecord}
    (hi : Inv s) (hmx1 : MutExRec rec) :
    KeysNodup (mapSet s.locks r rec) ∧
    (∀ e ∈ mapSet s.locks r rec, MutExRec e.2) ∧
    (∀ e ∈ mapSet s.locks r rec, e.1 ≠ r → GoodRec e.2) := by
  refine ⟨keysNodup_mapSet r rec hi.1, ?_, ?_⟩
  · intro e he
    rcases mem_mapSet_key hi.1 he with h1 | h1
    · rw [h1]; exact hmx1
    · exact (hi.2 e h1.1).1
  · intro e he her
    rcases mem_mapSet_key hi.1 he with h1 | h1
    · rw [h1] at her; exact absurd rfl her
    · exact hi.2 e h1.1

theorem process_after_set_inv (s : ManagerState) (r : String) (rec : LockRecord)
    (now : Nat) (hi : Inv s) (hmx1 : MutExRec rec)
    (s2 : ManagerState) (hlocks : s2.locks = mapSet s.locks r rec) :
    Inv (processQueue s2 r now).1 := by
  apply processQueue_inv
  · rw [hlocks]; exact (preInv_set_mutex hi hmx1).1
  · rw [hlocks]; exact (preInv_set_mutex hi hmx1).2.1
  · rw [hlocks]; exact (preInv_set_mutex hi hmx1).2.2

theorem process_after_set_cleanup_inv (s : ManagerState) (r : String)
    (rec : LockRecord) (now : Nat) (hi : Inv s) (hmx1 : MutExRec rec)
    (s2 : ManagerState) (hlocks : s2.locks = cleanup (mapSet s.locks r rec) r) :
    Inv (processQueue s2 r now).1 := by
  apply processQueue_inv
  · rw [hlocks]
    exact keysNodup_cleanup r (preInv_set_mutex hi hmx1).1
  · rw [hlocks]
    intro e he
    exact (preInv_set_mutex hi hmx1).2.1 e (mem_cleanup he)
  · rw [hlocks]
    intro e he her
    exact (preInv_set_mutex hi hmx1).2.2 e (mem_cleanup he) her

theorem inv_cleanup (s : ManagerState) (r : String) (hi : Inv s) :
    Inv { s with locks := cleanup s.locks r } := by
  refine ⟨keysNodup_cleanup r hi.1, ?_⟩
  intro e he
  exact hi.2 e (mem_cleanup he)

/-- `enqueue` preserves the table invariant. -/
theorem enqueue_inv (s : ManagerState) (r sid : String) (type : LockType)
    (timeout now : Nat) (hi : Inv s) : Inv (enqueue s r sid type timeout now).1 := by
  unfold enqueue getRecord
  cases hrec : mapGet s.locks r with
  | some record =>
    simp only [hrec]
    refine process_after_set_inv s r
      { record with queue := record.queue ++
          [{ reqId := s.nextReqId, type := type, sessionId := sid,
             requestedAt := now, deadline := now + timeout }] } now hi ?_ _ rfl
    exact (hi.2 (r, record) (mapGet_some_mem hrec)).1
  | none =>
    simp only [hrec]
    refine process_after_set_inv s r
      { emptyRecord with queue := emptyRecord.queue ++
          [{ reqId := s.nextReqId, type := type, sessionId := sid,
             requestedAt := now, deadline := now + timeout }] } now hi
      (Or.inl rfl) _ (mapSet_mapSet s.locks r emptyRecord _)

/-- The timer body preserves the table invariant. -/
theorem timeoutFire_inv (s : ManagerState) (r : String) (reqId now : Nat)
    (hi : Inv s) : Inv (timeoutFire s r reqId now).1 := by
  unfold timeoutFire
  cases hrec : mapGet s.locks r with
  | none => simp only [hrec]; exact hi
  | some record =>
    simp only [hrec]
    cases hfind : record.queue.find? (fun req => req.reqId == reqId) with
    | none => exact hi
    | some request =>
      refine process_after_set_cleanup_inv s r
        { record with queue := record.queue.filter (fun req => req.reqId != reqId) }
        now hi ?_ _ rfl
      exact (hi.2 (r, record) (mapGet_some_mem hrec)).1

theorem ite_pushLog_locks (c : Prop) [Decidable c] (s1 : ManagerState) (m : LogMsg) :
    (if c then pushLog s1 m else s1).locks = s1.locks := by
  split <;> rfl

/-- `releaseLock` preserves the table invariant. -/
theorem releaseLock_inv (s : ManagerState) (r sid : String) (now : Nat)
    (hi : Inv s) : Inv (releaseLock s r sid now).1 := by
  unfold releaseLock
  cases hrec : mapGet s.locks r with
  | none => simp only [hrec]; exact hi
  | some record =>
    simp only [hrec]
    have hmxr : MutExRec record := (hi.2 (r, record) (mapGet_some_mem hrec)).1
    have hmx1 : MutExRec
        { readers := mapDelete record.readers sid,
          writer := match record.writer with
                    | some w => if w.1 == sid then none else some w
                    | none => none,
          queue := (rejectSession record.queue sid).1 } := by
      cases hwr : record.writer with
      | none => exact Or.inl rfl
      | some w =>
        by_cases hs : (w.1 == sid) = true
        · left; simp [hs]
        · have hrd : record.readers = [] := by
            rcases hmxr with h1 | h1
            · rw [hwr] at h1; exact absurd h1 (by simp)
            · exact h1
          right
          show mapDelete record.readers sid = []
          rw [hrd]
          rfl
    exact inv_cleanup _ r
      (process_after_set_inv s r _ now hi hmx1 _
        (Eq.trans (ite_pushLog_locks _ _ _) rfl))

/-- `forceUnlock` preserves the table invariant. -/
theorem forceUnlock_inv (s : ManagerState) (r : String) (hi : Inv s) :
    Inv (forceUnlock s r).1 := by
  unfold forceUnlock
  cases hrec : mapGet s.locks r with
  | none => simp only [hrec]; exact hi
  | some record =>
    simp only [hrec]
    have hnd1 : KeysNodup (mapSet s.locks r emptyRecord) :=
      keysNodup_mapSet r emptyRecord hi.1
    refine ⟨keysNodup_cleanup r hnd1, ?_⟩
    intro e he
    by_cases her : e.1 = r
    · have h2 := mem_cleanup_key hnd1 he her
      have heq : e.2 = emptyRecord :=
        mapGet_unique hnd1 (mapGet_set_self s.locks r emptyRecord) e h2.1 her
      rw [heq] at h2
      exact absurd ⟨rfl, rfl, rfl⟩ h2.2
    · have h2 := mem_cleanup he
      rcases mem_mapSet_key hi.1 h2 with h1 | h1
      · rw [h1] at her; exact absurd rfl her
      · exact hi.2 e h1.1

/-- `clearAll` preserves the table invariant. -/
theorem clearAll_inv (s : ManagerState) (hi : Inv s) : Inv (clearAll s).1 := by
  unfold clearAll
  have hfold : ∀ (ks : List String) (acc : ManagerState × List Event), Inv acc.1 →
      Inv ((ks.foldl (fun acc k =>
        ((forceUnlock acc.1 k).1, acc.2 ++ (forceUnlock acc.1 k).2)) acc)).1 := by
    intro ks
    induction ks with
    | nil => intro acc h; exact h
    | cons k rest ih =>
      intro acc h
      exact ih _ (forceUnlock_inv acc.1 k h)
  exact inv_locks_eq rfl (hfold (s.locks.map Prod.fst) (s, []) hi)

/-- Every step of the manager preserves the table invariant. -/
theorem applyStep_inv (s : ManagerState) (st : Step) (hi : Inv s) :
    Inv (applyStep s st).1 := by
  cases st with
  | acquireRead r sid now => exact enqueue_inv s r sid LockType.read LOCK_TIMEOUT_MS now hi
  | acquireWrite r sid now => exact enqueue_inv s r sid LockType.write LOCK_TIMEOUT_MS now hi
  | process r now =>
    exact processQueue_inv s r now hi.1 (fun e he => (hi.2 e he).1)
      (fun e he _ => hi.2 e he)
  | timeoutStep r reqId now => exact timeoutFire_inv s r reqId now hi
  | release r sid now => exact releaseLock_inv s r sid now hi
  | force r => exact forceUnlock_inv s r hi
  | clearAllStep => exact clearAll_inv s hi
  | simRead r uuid holdMs now =>
    exact enqueue_inv s r ("sim-read-" ++ uuid) LockType.read LOCK_TIMEOUT_MS now hi
  | simWrite r uuid holdMs now =>
    exact enqueue_inv s r ("sim-write-" ++ uuid) LockType.write LOCK_TIMEOUT_MS now hi

theorem initState_inv : Inv initState := by
  refine ⟨keysNodup_nil, ?_⟩
  intro e he
  simp [initState] at he

theorem runSteps_inv (steps : List Step) :
    ∀ s : ManagerState, Inv s → Inv (runSteps s steps) := by
  induction steps with
  | nil => intro s h; exact h
  | cons st rest ih =>
    intro s h
    exact ih _ (applyStep_inv s st h)

/-- Every reachable manager state satisfies the table invariant. -/
theorem reachable_inv {s : ManagerState} (h : Reachable s) : Inv s := by
  rcases h with ⟨steps, hsteps⟩
  rw [← hsteps]
  exact runSteps_inv steps initState initState_inv

/-! ## Further supporting lemmas -/

theorem mem_insertSorted {α : Type} (le : α → α → Bool) (x a : α) :
    ∀ l : List α, a ∈ insertSorted le x l ↔ a = x ∨ a ∈ l := by
  intro l
  induction l with
  | nil => simp [insertSorted]
  | cons y ys ih =>
    show a ∈ (if le x y then x :: y :: ys else y :: insertSorted le x ys) ↔ _
    by_cases h : le x y
    · rw [if_pos h]
      simp
    · rw [if_neg h]
      simp only [List.mem_cons, ih]
      tauto

theorem mem_sortByLe {α : Type} (le : α → α → Bool) (a : α) (l : List α) :
    a ∈ sortByLe le l ↔ a ∈ l := by
  induction l with
  | nil => simp [sortByLe]
  | cons y ys ih =>
    show a ∈ insertSorted le y (sortByLe le ys) ↔ _
    rw [mem_insertSorted, ih]
    simp

theorem recordActive_resourceId {rid : String} {record : LockRecord}
    {e : ActiveLockSnapshot} (h : e ∈ recordActive rid record) :
    e.resourceId = rid := by
  unfold recordActive at h
  rcases List.mem_append.mp h with h1 | h1
  · cases hw : record.writer with
    | none => rw [hw] at h1; simp at h1
    | some w =>
      rw [hw] at h1
      simp at h1
      rw [h1]
  · rcases List.mem_map.mp h1 with ⟨p, _, hpe⟩
    rw [← hpe]

theorem getActiveLocks_resource {s : ManagerState} {r : String}
    (h : mapGet s.locks r = none) :
    ∀ e ∈ getActiveLocks s, e.resourceId ≠ r := by
  intro e he
  rw [getActiveLocks, mem_sortByLe] at he
  rcases List.mem_flatMap.mp he with ⟨entry, hentry, hee⟩
  rw [recordActive_resourceId hee]
  exact mapGet_none_key h entry hentry

theorem getLockQueue_resource {s : ManagerState} {r : String}
    (h : mapGet s.locks r = none) :
    ∀ e ∈ getLockQueue s, e.resourceId ≠ r := by
  intro e he
  rw [getLockQueue, mem_sortByLe] at he
  rcases List.mem_flatMap.mp he with ⟨entry, hentry, hee⟩
  rcases List.mem_map.mp hee with ⟨req, _, hre⟩
  have : e.resourceId = entry.1 := by rw [← hre]
  rw [this]
  exact mapGet_none_key h entry hentry

theorem rejectSession_spec (q : List LockRequest) (sid : String) :
    (rejectSession q sid).1 = q.filter (fun req => !(req.sessionId == sid)) ∧
    (rejectSession q sid).2 = (q.filter (fun req => req.sessionId == sid)).map
      (fun req => Event.rejectedEv req (LockError.cancelled sid)) := by
  induction q with
  | nil => simp [rejectSession]
  | cons req rest ih =>
    by_cases h : (req.sessionId == sid) = true
    · simp [rejectSession, h, List.filter, ih.1, ih.2]
    · simp only [Bool.not_eq_true] at h
      simp [rejectSession, h, List.filter, ih.1, ih.2]

theorem rejectSession_of_none (q : List LockRequest) (sid : String)
    (h : ∀ req ∈ q, req.sessionId ≠ sid) : rejectSession q sid = (q, []) := by
  induction q with
  | nil => rfl
  | cons req rest ih =>
    have h1 : (req.sessionId == sid) = false := by
      simp [h req (List.mem_cons_self req rest)]
    have h2 := ih (fun x hx => h x (List.mem_cons_of_mem req hx))
    simp [rejectSession, h1, h2]

/-- On any state satisfying the invariant — in particular any
reachable state — the scheduler pass changes nothing: every record is
already stable. -/
theorem processQueue_stable (s : ManagerState) (r : String) (now : Nat)
    (hi : Inv s) : processQueue s r now = (s, []) := by
  cases hrec : mapGet s.locks r with
  | none => unfold processQueue; simp only [hrec]
  | some record =>
    have hg := hi.2 (r, record) (mapGet_some_mem hrec)
    cases hq : record.queue with
    | nil =>
      have hcond : ¬(record.readers = [] ∧ record.writer = none ∧ record.queue = []) := by
        rcases hg.2.1 with h1 | h1 | h1
        · tauto
        · tauto
        · exact absurd hq h1
      have hcl : cleanup s.locks r = s.locks := by
        unfold cleanup
        simp only [hrec]
        rw [if_neg hcond]
      unfold processQueue
      simp only [hrec, hq, hcl]
    | cons next restQ =>
      by_cases hwx : record.writer.isSome
      · unfold processQueue
        simp only [hrec, hq]
        simp [hwx]
      · have hst := hg.2.2
        simp only [StableRec, hq] at hst
        rcases hst with h1 | h1
        · exact absurd (Option.isSome_iff_ne_none.mpr h1) hwx
        · unfold processQueue
          simp only [hrec, hq]
          simp [hwx, h1.1, h1.2]

theorem cleanup_of_inv (s : ManagerState) (r : String) (hi : Inv s) :
    cleanup s.locks r = s.locks := by
  cases hrec : mapGet s.locks r with
  | none => unfold cleanup; simp only [hrec]
  | some record =>
    have hcond : ¬(record.readers = [] ∧ record.writer = none ∧ record.queue = []) := by
      rcases (hi.2 (r, record) (mapGet_some_mem hrec)).2.1 with h1 | h1 | h1 <;> tauto
    unfold cleanup
    simp only [hrec]
    rw [if_neg hcond]

theorem mem_dropWhile_self {α : Type} (p : α → Bool) :
    ∀ (l : List α) (a : α), a ∈ l.dropWhile p → a ∈ l := by
  intro l
  induction l with
  | nil => intro a h; simp at h
  | cons x xs ih =>
    intro a h
    by_cases hx : p x
    · rw [List.dropWhile_cons, if_pos hx] at h
      exact List.mem_cons_of_mem x (ih a h)
    · rw [List.dropWhile_cons, if_neg hx] at h
      exact h

theorem mem_takeWhile_self {α : Type} (p : α → Bool) :
    ∀ (l : List α) (a : α), a ∈ l.takeWhile p → a ∈ l := by
  intro l
  induction l with
  | nil => intro a h; simp at h
  | cons x xs ih =>
    intro a h
    by_cases hx : p x
    · rw [List.takeWhile_cons, if_pos hx] at h
      rcases List.mem_cons.mp h with h1 | h1
      · rw [h1]; exact List.mem_cons_self x xs
      · exact List.mem_cons_of_mem x (ih a h1)
    · rw [List.takeWhile_cons, if_neg hx] at h
      simp at h

theorem mapGet_foldl_mapSet_none (granted : List LockRequest) (sid : String)
    (now : Nat) :
    ∀ rs : List (String × Nat), mapGet rs sid = none →
      (∀ g ∈ granted, g.sessionId ≠ sid) →
      mapGet (granted.foldl (fun m g => mapSet m g.sessionId now) rs) sid = none := by
  induction granted with
  | nil => intro rs h _; exact h
  | cons g rest ih =>
    intro rs h hall
    show mapGet (rest.foldl (fun m g => mapSet m g.sessionId now)
      (mapSet rs g.sessionId now)) sid = none
    apply ih
    · rw [mapGet_set_ne rs g.sessionId sid now
        (Ne.symm (hall g (List.mem_cons_self g rest)))]
      exact h
    · intro x hx
      exact hall x (List.mem_cons_of_mem g hx)

theorem cleanup_get (locks : List (String × LockRecord)) (r : String) :
    mapGet (cleanup locks r) r = none ∨ cleanup locks r = locks := by
  unfold cleanup
  split
  · right; rfl
  · split
    · left; exact mapGet_delete_self _ _
    · right; rfl

/-- Every settlement the scheduler pass emits is a grant, never a
rejection. -/
theorem processQueue_events (s : ManagerState) (r : String) (now : Nat) :
    ∃ reqs : List LockRequest,
      (processQueue s r now).2 = reqs.map Event.resolved := by
  unfold processQueue
  split
  · exact ⟨[], rfl⟩
  · rename_i record heq
    split
    · exact ⟨[], rfl⟩
    · rename_i next restQ hq2
      by_cases hw : record.writer.isSome = true
      · rw [if_pos hw]
        exact ⟨[], rfl⟩
      · rw [if_neg hw]
        by_cases ht : (next.type == LockType.write) = true
        · rw [if_pos ht]
          by_cases hre : record.readers = []
          · rw [if_pos hre]
            exact ⟨[next], rfl⟩
          · rw [if_neg hre]
            exact ⟨[], rfl⟩
        · rw [if_neg ht]
          exact ⟨(grantReads record.queue record.readers now).2.2, rfl⟩

theorem filter_rejection_map_resolved (reqs : List LockRequest) :
    (reqs.map Event.resolved).filter isRejection = [] := by
  induction reqs with
  | nil => rfl
  | cons req rest ih => simp [isRejection, List.filter, ih]

/-- The body of `releaseLock` in the present-record case, as one
equation. -/
theorem releaseLock_eq (s : ManagerState) (r sid : String) (now : Nat)
    (record : LockRecord) (hrec : mapGet s.locks r = some record) :
    releaseLock s r sid now =
      (let record1 : LockRecord :=
        { readers := mapDelete record.readers sid,
          writer := match record.writer with
                    | some w => if w.1 == sid then none else some w
                    | none => none,
          queue := (rejectSession record.queue sid).1 }
       let s1 := setRecord s r record1
       let s2 := if ((match record.writer with
                      | some w => w.1 == sid
                      | none => false) || (mapGet record.readers sid).isSome) = true
                 then pushLog s1 (LogMsg.released r sid) else s1
       let p := processQueue s2 r now
       ({ p.1 with locks := cleanup p.1.locks r },
        (rejectSession record.queue sid).2 ++ p.2)) := by
  unfold releaseLock
  simp only [hrec]

theorem releaseLock_none_eq (s : ManagerState) (r sid : String) (now : Nat)
    (hrec : mapGet s.locks r = none) : releaseLock s r sid now = (s, []) := by
  unfold releaseLock
  simp only [hrec]

/-- The scheduler pass never introduces a session into a resource's
record: if the session appears nowhere before, it appears nowhere
after. -/
theorem processQueue_sessionFree (s : ManagerState) (r : String) (now : Nat)
    (sid : String)
    (h : ∀ record, mapGet s.locks r = some record → sessionFree record sid) :
    ∀ record', mapGet (processQueue s r now).1.locks r = some record' →
      sessionFree record' sid := by
  cases hrec : mapGet s.locks r with
  | none =>
    have hres : processQueue s r now = (s, []) := by
      unfold processQueue; simp only [hrec]
    rw [hres]
    exact h
  | some record =>
    have hsf := h record hrec
    cases hq : record.queue with
    | nil =>
      have hres : processQueue s r now = ({ s with locks := cleanup s.locks r }, []) := by
        unfold processQueue; simp only [hrec, hq]
      rw [hres]
      intro record' hrec'
      rcases cleanup_get s.locks r with h1 | h1
      · rw [h1] at hrec'; cases hrec'
      · rw [h1] at hrec'
        rw [hrec] at hrec'
        cases hrec'
        exact hsf
    | cons next restQ =>
      by_cases hw : record.writer.isSome = true
      · have hres : processQueue s r now = (s, []) := by
          unfold processQueue; simp only [hrec, hq]; simp [hw]
        rw [hres]
        exact h
      · by_cases ht : (next.type == LockType.write) = true
        · by_cases hre : record.readers = []
          · have hres : (processQueue s r now).1.locks = mapSet s.locks r
                { record with queue := restQ, writer := some (next.sessionId, now) } := by
              unfold processQueue; simp only [hrec, hq]; simp [hw, ht, hre]
              rfl
            rw [hres]
            intro record' hrec'
            rw [mapGet_set_self] at hrec'
            cases hrec'
            refine ⟨?_, hsf.2.1, ?_⟩
            · intro w hwq
              have h2 : (next.sessionId, now) = w := by simpa using hwq
              rw [← h2]
              exact hsf.2.2 next (hq ▸ List.mem_cons_self next restQ)
            · intro req hreq
              exact hsf.2.2 req (hq ▸ List.mem_cons_of_mem next hreq)
          · have hres : processQueue s r now = (s, []) := by
              unfold processQueue; simp only [hrec, hq]; simp [hw, ht, hre]
            rw [hres]
            exact h
        · have hres : (processQueue s r now).1.locks = mapSet s.locks r
              { record with
                  queue := (grantReads (next :: restQ) record.readers now).1,
                  readers := (grantReads (next :: restQ) record.readers now).2.1 } := by
            unfold processQueue; simp only [hrec, hq]; simp [hw, ht]
            rw [pushLogList_locks]
            rfl
          rw [hres]
          intro record' hrec'
          rw [mapGet_set_self] at hrec'
          cases hrec'
          refine ⟨hsf.1, ?_, ?_⟩
          · show mapGet (grantReads (next :: restQ) record.readers now).2.1 sid = none
            rw [grantReads_readers]
            apply mapGet_foldl_mapSet_none
            · exact hsf.2.1
            · intro g hg
              exact hsf.2.2 g
                (hq ▸ mem_takeWhile_self (fun req => req.type == LockType.read) _ g hg)
          · intro req hreq
            rw [grantReads_queue] at hreq
            exact hsf.2.2 req
              (hq ▸ mem_dropWhile_self (fun req => req.type == LockType.read) _ req hreq)

theorem sessionFree_after_process_cleanup (s2 : ManagerState) (r sid : String)
    (now : Nat)
    (h : ∀ record, mapGet s2.locks r = some record → sessionFree record sid) :
    ∀ record', mapGet (cleanup (processQueue s2 r now).1.locks r) r = some record' →
      sessionFree record' sid := by
  intro record' hrec'
  rcases cleanup_get (processQueue s2 r now).1.locks r with h1 | h1
  · rw [h1] at hrec'; cases hrec'
  · rw [h1] at hrec'
    exact processQueue_sessionFree s2 r now sid h record' hrec'

/-- After `releaseLock(r, sid)` the session appears nowhere in the
resource's record: its held lock is gone and its queued requests are
gone. -/
theorem releaseLock_sessionFree (s : ManagerState) (r sid : String) (now : Nat) :
    ∀ record', mapGet (releaseLock s r sid now).1.locks r = some record' →
      sessionFree record' sid := by
  cases hrec : mapGet s.locks r with
  | none =>
    rw [releaseLock_none_eq s r sid now hrec]
    intro record' hrec'
    rw [hrec] at hrec'
    cases hrec'
  | some record =>
    have hsf1 : sessionFree
        { readers := mapDelete record.readers sid,
          writer := match record.writer with
                    | some w => if w.1 == sid then none else some w
                    | none => none,
          queue := (rejectSession record.queue sid).1 } sid := by
      refine ⟨?_, mapGet_delete_self record.readers sid, ?_⟩
      · intro w hw
        cases hwv : record.writer with
        | none => simp only [hwv] at hw; cases hw
        | some w0 =>
          simp only [hwv] at hw
          by_cases hs : (w0.1 == sid) = true
          · rw [if_pos hs] at hw; cases hw
          · rw [if_neg hs] at hw
            have h2 : w0 = w := by simpa using hw
            rw [← h2]
            simpa using hs
      · intro req hreq
        rw [(rejectSession_spec record.queue sid).1] at hreq
        have h3 := List.mem_filter.mp hreq
        simpa using h3.2
    intro record' hrec'
    rw [releaseLock_eq s r sid now record hrec] at hrec'
    refine sessionFree_after_process_cleanup _ r sid now ?_ record' hrec'
    intro rec0 hrec0
    rw [ite_pushLog_locks] at hrec0
    simp only [setRecord] at hrec0
    rw [mapGet_set_self] at hrec0
    cases hrec0
    exact hsf1

/-! ## Claim theorems -/

/-- C1: at every state reachable by any sequence of enqueue
(acquireReadLock/acquireWriteLock), processQueue, releaseLock, timeout
firing, forceUnlock, and clearAll steps, every resource record has the
writer slot occupied only with an empty reader set, and a non-empty
reader set only with an empty writer slot — never both at once. -/
theorem mutual_exclusion (s : ManagerState) (h : Reachable s) (r : String)
    (record : LockRecord) (hrec : mapGet s.locks r = some record) :
    (record.writer.isSome = true → record.readers = []) ∧
    (record.readers ≠ [] → record.writer = none) := by
  have hmx := (reachable_inv h).2 (r, record) (mapGet_some_mem hrec)
  constructor
  · intro hw
    rcases hmx.1 with h1 | h1
    · rw [h1] at hw; cases hw
    · exact h1
  · intro hr
    rcases hmx.1 with h1 | h1
    · exact h1
    · exact absurd h1 hr

/-- Closed instance of `mutual_exclusion` at a concrete reachable
state holding one writer. -/
theorem mutual_exclusion_witness :
    mapGet sW.locks "R" = some record0W ∧
    ((record0W.writer.isSome = true → record0W.readers = []) ∧
     (record0W.readers ≠ [] → record0W.writer = none)) :=
  ⟨by decide,
   mutual_exclusion sW ⟨[Step.acquireWrite "R" "w" 0], rfl⟩ "R" record0W (by decide)⟩

/-- C2: when a resource's queue head is a write request and there is
no current writer, one scheduler pass grants the head exactly when the
reader set is empty; with a non-empty reader set the entire state is
left unchanged — the head stays queued and nothing behind it is
granted (strict FIFO). -/
theorem scheduler_write_head (s : ManagerState) (r : String) (now : Nat)
    (record : LockRecord) (next : LockRequest) (restQ : List LockRequest)
    (hrec : mapGet s.locks r = some record)
    (hw : record.writer = none)
    (hq : record.queue = next :: restQ)
    (ht : next.type = LockType.write) :
    (record.readers = [] →
      processQueue s r now =
        (pushLog (setRecord s r
            { record with queue := restQ, writer := some (next.sessionId, now) })
          (LogMsg.acquired LockType.write r next.sessionId),
         [Event.resolved next])) ∧
    (record.readers ≠ [] → processQueue s r now = (s, [])) := by
  constructor
  · intro hre
    unfold processQueue
    simp only [hrec, hq]
    simp [hw, ht, hre]
  · intro hre
    unfold processQueue
    simp only [hrec, hq]
    simp [hw, ht, hre]

/-- Closed instance of `scheduler_write_head`: a write head blocked by
one current reader leaves the state untouched. -/
theorem scheduler_write_head_witness :
    mapGet sRWR.locks "R" = some record0RWR ∧
    record0RWR.writer = none ∧
    record0RWR.queue = reqWB :: [reqRC] ∧
    reqWB.type = LockType.write ∧
    (record0RWR.readers ≠ [] → processQueue sRWR "R" 3 = (sRWR, [])) :=
  ⟨by decide, by decide, by decide, by decide,
   (scheduler_write_head sRWR "R" 3 record0RWR reqWB [reqRC]
     (by decide) (by decide) (by decide) (by decide)).2⟩

/-- C3: when a resource has no current writer and its queue head is a
read request, one scheduler pass grants exactly the maximal contiguous
front block of read requests (the head included), stopping at the
first write request; the queue that remains is the original from that
first write onward, in order. -/
theorem scheduler_read_batch (s : ManagerState) (r : String) (now : Nat)
    (record : LockRecord) (next : LockRequest) (restQ : List LockRequest)
    (hrec : mapGet s.locks r = some record)
    (hw : record.writer = none)
    (hq : record.queue = next :: restQ)
    (ht : next.type = LockType.read) :
    record.queue.takeWhile (fun req => req.type == LockType.read) =
      next :: restQ.takeWhile (fun req => req.type == LockType.read) ∧
    processQueue s r now =
      (pushLogList (setRecord s r
          { record with
              queue := record.queue.dropWhile (fun req => req.type == LockType.read),
              readers := (record.queue.takeWhile
                  (fun req => req.type == LockType.read)).foldl
                (fun m g => mapSet m g.sessionId now) record.readers })
        ((record.queue.takeWhile (fun req => req.type == LockType.read)).map
          (fun g => LogMsg.acquired LockType.read r g.sessionId)),
       (record.queue.takeWhile (fun req => req.type == LockType.read)).map
         Event.resolved) := by
  have htr : (next.type == LockType.read) = true := by simp [ht]
  have htw : (next.type == LockType.write) = false := by simp [ht]
  constructor
  · rw [hq, List.takeWhile_cons, if_pos htr]
  · unfold processQueue
    simp only [hrec, hq]
    have hwi : record.writer.isSome = false := by simp [hw]
    simp only [hwi, Bool.false_eq_true, if_false, htw]
    rw [grantReads_queue, grantReads_readers, grantReads_granted]

/-- Closed instance of `scheduler_read_batch`: from queue
`[read p, read q, write z]` on an idle record the pass grants exactly
`p` and `q` and leaves `[write z]` queued. -/
theorem scheduler_read_batch_witness :
    mapGet sReadHead.locks "R" = some record0RH ∧
    record0RH.writer = none ∧
    record0RH.queue = reqR1 :: [reqR2, reqW3] ∧
    reqR1.type = LockType.read ∧
    processQueue sReadHead "R" 9 =
      ({ locks := [("R",
           { readers := [("p", 9), ("q", 9)], writer := none, queue := [reqW3] })],
         recentLogs := [LogMsg.acquired LockType.read "R" "p",
           LogMsg.acquired LockType.read "R" "q"],
         durableLog := [LogMsg.acquired LockType.read "R" "p",
           LogMsg.acquired LockType.read "R" "q"],
         nextReqId := 13 },
       [Event.resolved reqR1, Event.resolved reqR2]) :=
  ⟨by decide, by decide, by decide, by decide,
   Eq.trans
     ((scheduler_read_batch sReadHead "R" 9 record0RH reqR1 [reqR2, reqW3]
       (by decide) (by decide) (by decide) (by decide)).2)
     (by decide)⟩

/-- C9: at every reachable state, a resource has a lock-table entry
exactly when it currently has at least one reader, a writer, or a
non-empty wait queue. -/
theorem table_entry_iff_active (s : ManagerState) (h : Reachable s) (r : String) :
    (mapGet s.locks r).isSome = hasActivity s r := by
  have hi := reachable_inv h
  cases hrec : mapGet s.locks r with
  | none => simp [hasActivity, hrec]
  | some record =>
    have hne := (hi.2 (r, record) (mapGet_some_mem hrec)).2.1
    simp only [hasActivity, hrec]
    rcases hne with h1 | h1 | h1
    · cases hx : record.readers with
      | nil => exact absurd hx h1
      | cons a as => simp [hx]
    · cases hx : record.writer with
      | none => exact absurd hx h1
      | some w => simp [hx]
    · cases hx : record.queue with
      | nil => exact absurd hx h1
      | cons a as => simp [hx]

/-- Closed instance of `table_entry_iff_active` at a concrete
reachable state. -/
theorem table_entry_iff_active_witness :
    (mapGet sW.locks "R").isSome = hasActivity sW "R" ∧
    (mapGet sW.locks "X").isSome = hasActivity sW "X" :=
  ⟨table_entry_iff_active sW ⟨[Step.acquireWrite "R" "w" 0], rfl⟩ "R",
   table_entry_iff_active sW ⟨[Step.acquireWrite "R" "w" 0], rfl⟩ "X"⟩

theorem find?_reqId (q1 q2 : List LockRequest) (request : LockRequest)
    (reqId : Nat) (hid : request.reqId = reqId)
    (h1 : ∀ req ∈ q1, req.reqId ≠ reqId) :
    (q1 ++ request :: q2).find? (fun req => req.reqId == reqId) = some request := by
  induction q1 with
  | nil =>
    simp only [List.nil_append]
    rw [List.find?_cons_of_pos]
    simp [hid]
  | cons a rest ih =>
    simp only [List.cons_append]
    rw [List.find?_cons_of_neg]
    · exact ih (fun req hr => h1 req (List.mem_cons_of_mem a hr))
    · simp [h1 a (List.mem_cons_self a rest)]

theorem filter_reqId (q1 q2 : List LockRequest) (request : LockRequest)
    (reqId : Nat) (hid : request.reqId = reqId)
    (h1 : ∀ req ∈ q1, req.reqId ≠ reqId) (h2 : ∀ req ∈ q2, req.reqId ≠ reqId) :
    (q1 ++ request :: q2).filter (fun req => req.reqId != reqId) = q1 ++ q2 := by
  induction q1 with
  | nil =>
    simp only [List.nil_append]
    rw [List.filter_cons_of_neg]
    · rw [List.filter_eq_self.mpr]
      intro a ha
      simp [h2 a ha]
    · simp [hid]
  | cons a rest ih =>
    simp only [List.cons_append]
    rw [List.filter_cons_of_pos]
    · rw [ih (fun req hr => h1 req (List.mem_cons_of_mem a hr))]
    · simp [h1 a (List.mem_cons_self a rest)]

/-- C4: when the timer of a pending request fires, the timeout handler
removes exactly that request from its resource's queue (the others
keep their order), fails the pending acquisition with the lock-timeout
error naming the mode and resource, records the `TIMEOUT` audit event,
and re-runs the scheduler on the resource — so a removed blocking
write request can unblock reads queued behind it.  The default
deadline used by the acquire operations is `LOCK_TIMEOUT_MS` = 5000
milliseconds after enqueue. -/
theorem timeout_step_spec (s : ManagerState) (r : String) (reqId now : Nat)
    (record : LockRecord) (q1 q2 : List LockRequest) (request : LockRequest)
    (hrec : mapGet s.locks r = some record)
    (hq : record.queue = q1 ++ request :: q2)
    (hid : request.reqId = reqId)
    (h1 : ∀ req ∈ q1, req.reqId ≠ reqId)
    (h2 : ∀ req ∈ q2, req.reqId ≠ reqId) :
    LOCK_TIMEOUT_MS = 5000 ∧
    timeoutFire s r reqId now =
      (let s1 := pushLog (setRecord s r { record with queue := q1 ++ q2 })
          (LogMsg.timeoutMsg request.type r request.sessionId)
       let s2 := { s1 with locks := cleanup s1.locks r }
       let p := processQueue s2 r now
       (p.1, Event.rejectedEv request (LockError.timeoutErr request.type r) :: p.2)) := by
  refine ⟨rfl, ?_⟩
  have hfind : record.queue.find? (fun req => req.reqId == reqId) = some request := by
    rw [hq]; exact find?_reqId q1 q2 request reqId hid h1
  have hfilter : record.queue.filter (fun req => req.reqId != reqId) = q1 ++ q2 := by
    rw [hq]; exact filter_reqId q1 q2 request reqId hid h1 h2
  unfold timeoutFire
  simp only [hrec, hfind, hfilter]

/-- Closed instance of `timeout_step_spec`: the queued write of
session `b` (blocked by reader `a`) times out; it is removed and
rejected, and the read of session `c` queued behind it is granted by
the re-run of the scheduler. -/
theorem timeout_step_witness :
    mapGet sRWR.locks "R" = some record0RWR ∧
    record0RWR.queue = [] ++ reqWB :: [reqRC] ∧
    reqWB.reqId = 1 ∧
    timeoutFire sRWR "R" 1 5001 =
      ({ locks := [("R",
           { readers := [("a", 0), ("c", 5001)], writer := none, queue := [] })],
         recentLogs := [LogMsg.queued LockType.read "R" "a",
           LogMsg.acquired LockType.read "R" "a",
           LogMsg.queued LockType.write "R" "b",
           LogMsg.queued LockType.read "R" "c",
           LogMsg.timeoutMsg LockType.write "R" "b",
           LogMsg.acquired LockType.read "R" "c"],
         durableLog := [LogMsg.queued LockType.read "R" "a",
           LogMsg.acquired LockType.read "R" "a",
           LogMsg.queued LockType.write "R" "b",
           LogMsg.queued LockType.read "R" "c",
           LogMsg.timeoutMsg LockType.write "R" "b",
           LogMsg.acquired LockType.read "R" "c"],
         nextReqId := 3 },
       [Event.rejectedEv reqWB (LockError.timeoutErr LockType.write "R"),
        Event.resolved reqRC]) :=
  ⟨by decide, by decide, by decide,
   Eq.trans
     ((timeout_step_spec sRWR "R" 1 5001 record0RWR [] [reqRC] reqWB
       (by decide) (by decide) (by decide) (by decide) (by decide)).2)
     (by decide)⟩

/-- C5: for a resource present in the table, `forceUnlock` rejects
every queued request with the force-unlock cancellation error, logs
the event with the affected holder sessions, and removes the table
entry, so the resource appears in no subsequent active-lock or queue
snapshot (writer cleared, readers emptied). -/
theorem force_unlock_complete (s : ManagerState) (r : String)
    (record : LockRecord) (hrec : mapGet s.locks r = some record) :
    mapGet (forceUnlock s r).1.locks r = none ∧
    (forceUnlock s r).2 = record.queue.map
      (fun req => Event.rejectedEv req (LockError.forceFlushed req.sessionId)) ∧
    (∀ e ∈ getActiveLocks (forceUnlock s r).1, e.resourceId ≠ r) ∧
    (∀ e ∈ getLockQueue (forceUnlock s r).1, e.resourceId ≠ r) ∧
    (forceUnlock s r).1.durableLog = s.durableLog ++
      [LogMsg.forceUnlockMsg r ((record.writer.map Prod.fst).toList ++
        record.readers.map Prod.fst)] := by
  have hglocks : (forceUnlock s r).1.locks =
      cleanup (mapSet s.locks r emptyRecord) r := by
    unfold forceUnlock
    simp only [hrec]
    rfl
  have hnone : mapGet (forceUnlock s r).1.locks r = none := by
    rw [hglocks]
    have hdel : cleanup (mapSet s.locks r emptyRecord) r =
        mapDelete (mapSet s.locks r emptyRecord) r := by
      unfold cleanup
      simp only [mapGet_set_self]
      simp [emptyRecord]
    rw [hdel, mapGet_delete_self]
  refine ⟨hnone, ?_, getActiveLocks_resource hnone, getLockQueue_resource hnone, ?_⟩
  · unfold forceUnlock
    simp only [hrec]
  · unfold forceUnlock
    simp only [hrec]
    rfl

/-- Closed instance of `force_unlock_complete`: one writer and two
queued readers; force-unlock rejects both queued readers and the
resource is gone from the table and both snapshots. -/
theorem force_unlock_complete_witness :
    mapGet sWRR.locks "R" = some record0WRR ∧
    mapGet (forceUnlock sWRR "R").1.locks "R" = none ∧
    (forceUnlock sWRR "R").2 =
      [Event.rejectedEv reqA (LockError.forceFlushed "a"),
       Event.rejectedEv reqB (LockError.forceFlushed "b")] ∧
    getActiveLocks (forceUnlock sWRR "R").1 = [] ∧
    getLockQueue (forceUnlock sWRR "R").1 = [] :=
  ⟨by decide,
   (force_unlock_complete sWRR "R" record0WRR (by decide)).1,
   Eq.trans ((force_unlock_complete sWRR "R" record0WRR (by decide)).2.1) (by decide),
   by decide, by decide⟩

theorem filter_rejection_map_rejected (l : List LockRequest) (sid : String) :
    ((l.map (fun req => Event.rejectedEv req (LockError.cancelled sid))).filter
      isRejection) =
      l.map (fun req => Event.rejectedEv req (LockError.cancelled sid)) := by
  induction l with
  | nil => rfl
  | cons req rest ih => simp [isRejection, List.filter, ih]

/-- The body of `releaseLock` in the present-record case, decomposed
through `releaseMid`. -/
theorem releaseLock_eq2 (s : ManagerState) (r sid : String) (now : Nat)
    (record : LockRecord) (hrec : mapGet s.locks r = some record) :
    releaseLock s r sid now =
      ({ (processQueue (releaseMid s r sid record) r now).1 with
          locks := cleanup (processQueue (releaseMid s r sid record) r now).1.locks r },
       (rejectSession record.queue sid).2 ++
         (processQueue (releaseMid s r sid record) r now).2) := by
  unfold releaseLock releaseMid releasedRecord releasedFlag
  simp only [hrec]

/-- C6: releasing a session that holds no reader entry, does not
occupy the writer slot, and has nothing queued on the resource
succeeds and leaves the state bit-for-bit unchanged with no settlement
events; in general `releaseLock` leaves the session holding and
queueing nothing on the resource, and its rejection events are exactly
one cancellation per queued request the session owned. -/
theorem release_idempotent (s : ManagerState) (r sid : String) (now : Nat)
    (h : Reachable s) :
    (holdsNothing s r sid = true → releaseLock s r sid now = (s, [])) ∧
    (∀ record', mapGet (releaseLock s r sid now).1.locks r = some record' →
      sessionFree record' sid) ∧
    (∀ record, mapGet s.locks r = some record →
      (releaseLock s r sid now).2.filter isRejection =
        (record.queue.filter (fun req => req.sessionId == sid)).map
          (fun req => Event.rejectedEv req (LockError.cancelled sid))) := by
  refine ⟨?_, releaseLock_sessionFree s r sid now, ?_⟩
  · intro hn
    cases hrec : mapGet s.locks r with
    | none => exact releaseLock_none_eq s r sid now hrec
    | some record =>
      have hi := reachable_inv h
      simp only [holdsNothing, hrec, Bool.and_eq_true] at hn
      obtain ⟨⟨hw1, hr1⟩, hq1⟩ := hn
      have hrdel : mapDelete record.readers sid = record.readers := by
        apply mapDelete_of_none
        cases hx : mapGet record.readers sid with
        | none => rfl
        | some v => rw [hx] at hr1; simp at hr1
      have hqall : ∀ req ∈ record.queue, req.sessionId ≠ sid := by
        intro req hreq
        have h3 := List.all_eq_true.mp hq1 req hreq
        simpa using h3
      have hrej : rejectSession record.queue sid = (record.queue, []) :=
        rejectSession_of_none _ _ hqall
      have hwcomp : (match record.writer with
          | some w => if w.1 == sid then none else some w
          | none => none) = record.writer := by
        revert hw1
        cases hwv : record.writer with
        | none => intro _; rfl
        | some w =>
          intro hw1
          have hb : ¬((w.1 == sid) = true) := by simpa using hw1
          show (if (w.1 == sid) = true then none else some w) = some w
          rw [if_neg hb]
      have hrr : releasedRecord record sid = record := by
        unfold releasedRecord
        rw [hrdel, hrej, hwcomp]
      have hisr : (mapGet record.readers sid).isSome = false := by
        cases hx2 : mapGet record.readers sid with
        | none => rfl
        | some v => rw [hx2] at hr1; simp at hr1
      have hflag : releasedFlag record sid = false := by
        unfold releasedFlag
        revert hw1
        cases hwv : record.writer with
        | none =>
          intro _
          simp [hisr]
        | some w =>
          intro hw1
          have hb : (w.1 == sid) = false := by simpa using hw1
          simp [hb, hisr]
      have hmid : releaseMid s r sid record = s := by
        unfold releaseMid
        rw [hflag]
        rw [if_neg Bool.false_ne_true]
        unfold setRecord
        rw [hrr, mapSet_self hrec]
      rw [releaseLock_eq2 s r sid now record hrec, hmid, hrej,
        processQueue_stable s r now hi]
      show ({ s with locks := cleanup s.locks r }, ([] : List Event)) = (s, [])
      rw [cleanup_of_inv s r hi]
  · intro record hrec
    rw [releaseLock_eq2 s r sid now record hrec]
    show ((rejectSession record.queue sid).2 ++
        (processQueue (releaseMid s r sid record) r now).2).filter isRejection = _
    rw [List.filter_append]
    obtain ⟨reqs, hreqs⟩ := processQueue_events (releaseMid s r sid record) r now
    rw [hreqs, filter_rejection_map_resolved, List.append_nil,
      (rejectSession_spec record.queue sid).2]
    exact filter_rejection_map_rejected _ sid

/-- Closed instance of `release_idempotent`: releasing an uninvolved
session on a write-held resource changes nothing. -/
theorem release_idempotent_witness :
    holdsNothing sW "R" "x" = true ∧
    releaseLock sW "R" "x" 5 = (sW, []) :=
  ⟨by decide,
   (release_idempotent sW "R" "x" 5 ⟨[Step.acquireWrite "R" "w" 0], rfl⟩).1 (by decide)⟩

/-- C7 counterexample: on a resource write-held by another session,
the simulate call's synchronous pass ends with the generated session
id NOT yet returned to the caller (the `async` method `await`s the
acquisition before `return sessionId`, and the route responds only
with the resolved value) and no auto-release timer armed; the request
sits in the queue.  This refutes the claim that the session id is
returned immediately, before the acquisition is granted. -/
theorem simulate_not_returned_before_grant :
    (simulateReadLock sW "R" "u1" 100 5).returned = none ∧
    (simulateReadLock sW "R" "u1" 100 5).autoRelease = none ∧
    mapGet (simulateReadLock sW "R" "u1" 100 5).state.locks "R" =
      some { readers := [], writer := some ("w", 0),
             queue := [{ reqId := 1, type := LockType.read,
                         sessionId := "sim-read-u1", requestedAt := 5,
                         deadline := 5005 }] } := by
  decide

/-- C7 amended: `simulateReadLock`/`simulateWriteLock` acquire under
the freshly generated `sim-read-`/`sim-write-` session id through the
normal enqueue/timeout path; the session id is handed to the caller
exactly when the acquisition has been granted — not before — and the
automatic release (`holdMs` after the grant) is armed exactly then. -/
theorem simulate_session_on_grant (s : ManagerState) (r uuid : String)
    (holdMs now : Nat) :
    ((simulateReadLock s r uuid holdMs now).returned = some ("sim-read-" ++ uuid) ↔
      grantedNow (simulateReadLock s r uuid holdMs now).events
        ("sim-read-" ++ uuid) = true) ∧
    (simulateReadLock s r uuid holdMs now).autoRelease =
      (simulateReadLock s r uuid holdMs now).returned.map (fun sid => (sid, holdMs)) ∧
    (simulateReadLock s r uuid holdMs now).state =
      (acquireReadLock s r ("sim-read-" ++ uuid) now).1 ∧
    (simulateReadLock s r uuid holdMs now).events =
      (acquireReadLock s r ("sim-read-" ++ uuid) now).2 ∧
    ((simulateWriteLock s r uuid holdMs now).returned = some ("sim-write-" ++ uuid) ↔
      grantedNow (simulateWriteLock s r uuid holdMs now).events
        ("sim-write-" ++ uuid) = true) ∧
    (simulateWriteLock s r uuid holdMs now).autoRelease =
      (simulateWriteLock s r uuid holdMs now).returned.map (fun sid => (sid, holdMs)) ∧
    (simulateWriteLock s r uuid holdMs now).state =
      (acquireWriteLock s r ("sim-write-" ++ uuid) now).1 ∧
    (simulateWriteLock s r uuid holdMs now).events =
      (acquireWriteLock s r ("sim-write-" ++ uuid) now).2 := by
  unfold simulateReadLock simulateWriteLock
  refine ⟨?_, ?_, rfl, rfl, ?_, ?_, rfl, rfl⟩
  · by_cases hg : grantedNow (acquireReadLock s r ("sim-read-" ++ uuid) now).2
        ("sim-read-" ++ uuid) = true
    · simp [hg]
    · simp [hg]
  · by_cases hg : grantedNow (acquireReadLock s r ("sim-read-" ++ uuid) now).2
        ("sim-read-" ++ uuid) = true
    · simp [hg]
    · simp [hg]
  · by_cases hg : grantedNow (acquireWriteLock s r ("sim-write-" ++ uuid) now).2
        ("sim-write-" ++ uuid) = true
    · simp [hg]
    · simp [hg]
  · by_cases hg : grantedNow (acquireWriteLock s r ("sim-write-" ++ uuid) now).2
        ("sim-write-" ++ uuid) = true
    · simp [hg]
    · simp [hg]

/-- C8: the audit sink's `appendFile` failure is caught and changes
nothing observable except the durable file, but a directory-creation
failure is NOT caught: `log` rejects before the buffer push, and
`releaseLock` — which `await`s its log call — propagates the error to
its caller, leaving the mutated record in place with the `RELEASED`
line missing from the ring buffer and the rescheduling and reaping
skipped.  Evaluated at the failing input: session `w` releasing its
held write lock. -/
theorem release_log_dir_failure :
    releaseLockD true false sW "R" "w" 5 =
      Except.error
        { locks := [("R", emptyRecord)],
          recentLogs := [LogMsg.queued LockType.write "R" "w",
            LogMsg.acquired LockType.write "R" "w"],
          durableLog := [LogMsg.queued LockType.write "R" "w",
            LogMsg.acquired LockType.write "R" "w"],
          nextReqId := 1 } ∧
    releaseLockD false false sW "R" "w" 5 = Except.ok (releaseLock sW "R" "w" 5) ∧
    releaseLockD false true sW "R" "w" 5 =
      Except.ok ({ (releaseLock sW "R" "w" 5).1 with durableLog := sW.durableLog },
        (releaseLock sW "R" "w" 5).2) := by
  decide

/-- One query never mutates the state. -/
theorem applyQuery_state (s : ManagerState) (q : Query) :
    (applyQuery s q).1 = s := by
  cases q <;> rfl

/-- C10: the snapshot queries `getActiveLocks`, `getLockQueue` and
`getRecentLogs` are pure reads — running any number of them in any
order leaves the manager state identical — and `getRecentLogs`
returns a reversed copy of the buffer (the method copies with a
spread before reversing, so the internal buffer is untouched). -/
theorem queries_pure (s : ManagerState) (qs : List Query) :
    runQueries s qs = s ∧
    getRecentLogs s = s.recentLogs.reverse ∧
    (applyQuery s Query.active).2 = QueryOut.activeOut (getActiveLocks s) ∧
    (applyQuery s Query.queueQ).2 = QueryOut.queueOut (getLockQueue s) ∧
    (applyQuery s Query.logs).2 = QueryOut.logsOut (s.recentLogs.reverse) := by
  refine ⟨?_, rfl, rfl, rfl, rfl⟩
  induction qs with
  | nil => rfl
  | cons q rest ih =>
    show runQueries (applyQuery s q).1 rest = s
    rw [applyQuery_state]
    exact ih

end HospitalLocks
